/-
Verification of the path module (src/path.ts): tokenizer, segment parser,
point resolver, path view, elliptical-arc converter and polyline fitter.

Embedding conventions:
* JavaScript numbers are idealized as exact rationals (parser / fitter
  bookkeeping) or exact reals (arc trigonometry).  All inputs exercised by
  the concrete claims are exactly representable, so the idealization agrees
  with IEEE doubles there.
* The parser's `while` loop is embedded fuel-indexed (`parseLoop`); the
  distinguished results separate a normal `return` (`ok`), a thrown
  TypeError from reading a missing array element (`crash`), fuel exhaustion
  (`fuelOut`, used to witness divergence for every fuel), and the
  recursive re-parse with a synthetic move prefix (`needsMove`).
* `console.error` diagnostics do not affect control flow except where the
  source `return`s; they are not modelled.
-/
import Mathlib

set_option maxRecDepth 4000

/-! ## Data model -/

/-- A resolved 2D point; coordinates are idealized JavaScript numbers. -/
abbrev Q2 := ℚ × ℚ

/-- Path tokens, a tagged rendering of the source's `{type, text}` records:
`COMMAND` tokens keep their single-letter text, `NUMBER` tokens keep the
numeric value of their literal (the source stores `parseFloat`'s string and
converts back with unary `+`, an identity on the value), `END_OF_D` marks
the end of the description. -/
inductive PathToken
  | command (text : String)
  | number (val : ℚ)
  | endOfD
  deriving DecidableEq

/-- One parsed drawing instruction (source interface `Segment`): command
key, numeric parameters, and the absolute endpoint attached by
`processPoints` (absent before resolution). -/
structure Segment where
  key : String
  data : List ℚ
  point : Option Q2 := none
  deriving DecidableEq

/-- Arity table `PARAMS_LENGTH` from the source, as a partial map
(JavaScript's object lookup yields `undefined` for unknown keys). -/
def PARAMS_LENGTH : String → Option ℕ
  | "A" => some 7 | "a" => some 7
  | "C" => some 6 | "c" => some 6
  | "H" => some 1 | "h" => some 1
  | "L" => some 2 | "l" => some 2
  | "M" => some 2 | "m" => some 2
  | "Q" => some 4 | "q" => some 4
  | "S" => some 4 | "s" => some 4
  | "T" => some 4 | "t" => some 2
  | "V" => some 1 | "v" => some 1
  | "Z" => some 0 | "z" => some 0
  | _ => none

/-! ## Tokenizer (`ParsedPath.tokenize`) -/

/-- Characters of the separator class `[ \t\r\n,]`. -/
def isSepChar (c : Char) : Bool :=
  c = ' ' || c = '\t' || c = '\r' || c = '\n' || c = ','

/-- The command alphabet `[aAcChHlLmMqQsStTvVzZ]`. -/
def isCommandChar (c : Char) : Bool :=
  c = 'a' || c = 'A' || c = 'c' || c = 'C' || c = 'h' || c = 'H' ||
  c = 'l' || c = 'L' || c = 'm' || c = 'M' || c = 'q' || c = 'Q' ||
  c = 's' || c = 'S' || c = 't' || c = 'T' || c = 'v' || c = 'V' ||
  c = 'z' || c = 'Z'

/-- ASCII decimal digit test `[0-9]`. -/
def isDigitChar (c : Char) : Bool := '0' ≤ c && c ≤ '9'

/-- Greedy `[0-9]*`: longest digit prefix and the remaining input. -/
def takeDigits : List Char → List Char × List Char
  | [] => ([], [])
  | c :: cs =>
    if isDigitChar c then
      let r := takeDigits cs
      (c :: r.1, r.2)
    else ([], c :: cs)

/-- Numeric value of a digit string. -/
def digitsToNat (ds : List Char) : ℕ :=
  ds.foldl (fun n c => 10 * n + (c.toNat - 48)) 0

/-- Optional sign `[-+]?`: whether a minus was consumed, and the rest. -/
def matchSign : List Char → Bool × List Char
  | '+' :: cs => (false, cs)
  | '-' :: cs => (true, cs)
  | cs => (false, cs)

/-- Mantissa of the numeric-literal pattern, after the sign: either
`[0-9]+(\.[0-9]*)?` or `\.[0-9]+`, greedily matched. -/
def matchMantissa (cs : List Char) : Option (ℚ × List Char) :=
  let p := takeDigits cs
  if p.1.isEmpty then
    match p.2 with
    | '.' :: r2 =>
      let f := takeDigits r2
      if f.1.isEmpty then none
      else some ((digitsToNat f.1 : ℚ) / (10 : ℚ) ^ f.1.length, f.2)
    | _ => none
  else
    match p.2 with
    | '.' :: r2 =>
      let f := takeDigits r2
      some ((digitsToNat p.1 : ℚ) + (digitsToNat f.1 : ℚ) / (10 : ℚ) ^ f.1.length, f.2)
    | _ => some ((digitsToNat p.1 : ℚ), p.2)

/-- Optional exponent `([eE][-+]?[0-9]+)?`; the group is not consumed when
no digits follow the `e` (regex backtracking). -/
def matchExponent : List Char → Option (Bool × ℕ × List Char)
  | [] => none
  | c :: r1 =>
    if c = 'e' ∨ c = 'E' then
      let s := matchSign r1
      let e := takeDigits s.2
      if e.1.isEmpty then none else some (s.1, digitsToNat e.1, e.2)
    else none

/-- Longest-prefix match of the numeric-literal regex
`(([-+]?[0-9]+(\.[0-9]*)?|[-+]?\.[0-9]+)([eE][-+]?[0-9]+)?)`:
the literal's value and the remaining input, or `none` when it fails. -/
def matchNumber (cs : List Char) : Option (ℚ × List Char) :=
  let sg := matchSign cs
  match matchMantissa sg.2 with
  | none => none
  | some (m, r2) =>
    let ve : ℚ × List Char :=
      match matchExponent r2 with
      | some (eneg, e, r4) =>
        (if eneg then m / (10 : ℚ) ^ e else m * (10 : ℚ) ^ e, r4)
      | none => (m, r2)
    some (if sg.1 then -ve.1 else ve.1, ve.2)

/-- Tokenizer loop: strips separators, single command letters, or numeric
literals, in the source's priority order; any other character makes the
whole tokenization fail (`none`).  Fuel is one more than the input length;
every branch consumes at least one character, so fuel never runs out. -/
def tokenizeAux : ℕ → List Char → Option (List PathToken)
  | 0, _ => none
  | _ + 1, [] => some [PathToken.endOfD]
  | fuel + 1, c :: cs =>
    if isSepChar c then tokenizeAux fuel (cs.dropWhile isSepChar)
    else if isCommandChar c then
      (tokenizeAux fuel cs).map (fun l => PathToken.command (String.mk [c]) :: l)
    else
      match matchNumber (c :: cs) with
      | some (v, rest) => (tokenizeAux fuel rest).map (fun l => PathToken.number v :: l)
      | none => none

/-- `ParsedPath.tokenize`: token list of a path description; the failure
signal is the empty list (the source returns `[]`), success always ends in
`END_OF_D`. -/
def tokenize (d : String) : List PathToken :=
  (tokenizeAux (d.data.length + 1) d.data).getD []

/-! ## Segment parser (`ParsedPath.parseData`) -/

/-- Outcome of the parsing loop.  `ok` is a normal return (including the
source's diagnostic-then-`return` branches); `crash` is the TypeError
thrown when the loop dereferences an out-of-range token (`undefined`);
`fuelOut` reports that the given fuel was exhausted with the loop still
running (used to witness divergence at every fuel); `needsMove` is the
source's recursive re-parse of `'M0,0' + d`.  Each of the first three
carries the `this.segments` accumulated at that moment. -/
inductive PDResult
  | ok (segments : List Segment)
  | crash (segments : List Segment)
  | fuelOut (segments : List Segment)
  | needsMove
  deriving DecidableEq

/-- The segments held in a parse outcome. -/
def segsOf : PDResult → List Segment
  | .ok s => s
  | .crash s => s
  | .fuelOut s => s
  | .needsMove => []

/-- Result of the parameter-consuming inner `for` loop. -/
inductive ParamsRes
  | okP (params : List ℚ)
  | notNumber
  | oobCrash
  deriving DecidableEq

/-- Reads `pl` parameter tokens starting at index `start`; a non-`NUMBER`
token triggers the source's `Param not a number` return, a missing token
(never reachable under the loop's range guard) would be a TypeError. -/
def readParams (tokens : List PathToken) : ℕ → ℕ → ParamsRes
  | _, 0 => .okP []
  | start, pl + 1 =>
    match tokens[start]? with
    | some (.number v) =>
      match readParams tokens (start + 1) pl with
      | .okP ps => .okP (v :: ps)
      | r => r
    | some _ => .notNumber
    | none => .oobCrash

/-- The cursor / active-command update at the top of a `parseData` loop
iteration: on the very first token only `M`/`m` (by its text) may start the
parse, anything else requests the synthetic-move re-parse (`none`); later,
a `NUMBER` token keeps the active command while any other token becomes the
active command and advances the cursor past itself. -/
def parsePlan (tokenValue : String) (index : ℕ) (tok : PathToken) :
    Option (ℕ × String) :=
  if tokenValue = "BEGIN_OF_D" then
    match tok with
    | .command c => if c = "M" ∨ c = "m" then some (index + 1, c) else none
    | _ => none
  else
    match tok with
    | .number _ => some (index, tokenValue)
    | .command c => some (index + 1, c)
    | .endOfD => some (index + 1, tokenValue)

/-- The guarded parameter consumption of one loop iteration: when enough
tokens remain, read the arity-many parameters (a non-number aborts with a
diagnostic `return`), append the segment, advance cursor and token, and
demote `M`/`m` to `L`/`l`; when the data ends short, the source only logs —
it neither returns nor advances the (stale) token, so the loop re-enters
with the same token (`recur index1 (some tok) ...`).  An unknown arity
(`undefined`) fails the range comparison the same way. -/
def parseConsume (tokens : List PathToken)
    (recur : ℕ → Option PathToken → String → List Segment → PDResult)
    (index1 : ℕ) (tok : PathToken) (tv1 : String) (segs : List Segment) :
    PDResult :=
  match PARAMS_LENGTH tv1 with
  | none => recur index1 (some tok) tv1 segs
  | some pl =>
    if index1 + pl < tokens.length then
      match readParams tokens index1 pl with
      | .oobCrash => .crash segs
      | .notNumber => .ok segs
      | .okP params =>
        match PARAMS_LENGTH tv1 with
        | some _ =>
          recur (index1 + pl) tokens[index1 + pl]?
            (if tv1 = "M" then "L" else if tv1 = "m" then "l" else tv1)
            (segs ++ [{ key := tv1, data := params }])
        | none => .ok segs
    else recur index1 (some tok) tv1 segs

/-- One iteration of the source's `while` loop in `parseData`, with the
remaining iterations abstracted as `recur`.  The loop variables are the
token cursor `index`, the fetched `token` (an `Option`, `none` standing
for JavaScript's `undefined`, whose dereference in the loop condition
throws), the active command `tokenValue`, and the accumulated `segments`. -/
def parseBody (tokens : List PathToken)
    (recur : ℕ → Option PathToken → String → List Segment → PDResult)
    (index : ℕ) (tokOpt : Option PathToken) (tokenValue : String)
    (segs : List Segment) : PDResult :=
  match tokOpt with
  | none => .crash segs
  | some tok =>
    if tok = PathToken.endOfD then .ok segs
    else
      match parsePlan tokenValue index tok with
      | none => .needsMove
      | some (index1, tv1) => parseConsume tokens recur index1 tok tv1 segs

/-- Fuel-indexed unfolding of the `parseData` loop. -/
def parseLoop (tokens : List PathToken) :
    ℕ → ℕ → Option PathToken → String → List Segment → PDResult
  | 0, _, _, _, segs => .fuelOut segs
  | fuel + 1, index, tokOpt, tokenValue, segs =>
    parseBody tokens (parseLoop tokens fuel) index tokOpt tokenValue segs

/-- `parseData` without the synthetic-move retry: tokenize, fetch the first
token (a TypeError if the token list is empty) and run the loop.  One more
unit of fuel than there are tokens is enough for every terminating run,
since every continuing iteration of a terminating run advances the cursor. -/
def parseDataNoRetry (d : String) : PDResult :=
  let tokens := tokenize d
  parseLoop tokens (tokens.length + 1) 0 tokens[0]? "BEGIN_OF_D" []

/-- `ParsedPath.parseData`: when the description does not begin with a move
command the source recurses once on `'M0,0' + d`; the prefixed description
starts with the command `M`, so the recursion cannot ask for the prefix
again (the inner `needsMove` arm is unreachable). -/
def parseData (d : String) : PDResult :=
  match parseDataNoRetry d with
  | .needsMove =>
    match parseDataNoRetry ("M0,0" ++ d) with
    | .needsMove => .crash []
    | r => r
  | r => r

/-! ## Point resolver (`ParsedPath.processPoints`) -/

/-- The `switch` of `processPoints`: the resolved endpoint of a segment,
given the subpath start `first` and the pen position `cp`.  Parameters are
read with `getD`, faithful for parser-produced segments whose `data` always
has the command's exact arity. -/
def segPoint (s : Segment) (first : Option Q2) (cp : Q2) : Option Q2 :=
  match s.key with
  | "M" | "L" | "T" => some (s.data.getD 0 0, s.data.getD 1 0)
  | "m" | "l" | "t" => some (s.data.getD 0 0 + cp.1, s.data.getD 1 0 + cp.2)
  | "H" => some (s.data.getD 0 0, cp.2)
  | "h" => some (s.data.getD 0 0 + cp.1, cp.2)
  | "V" => some (cp.1, s.data.getD 0 0)
  | "v" => some (cp.1, s.data.getD 0 0 + cp.2)
  | "z" | "Z" => first.map (fun f => (f.1, f.2))
  | "C" => some (s.data.getD 4 0, s.data.getD 5 0)
  | "c" => some (s.data.getD 4 0 + cp.1, s.data.getD 5 0 + cp.2)
  | "S" | "Q" => some (s.data.getD 2 0, s.data.getD 3 0)
  | "s" | "q" => some (s.data.getD 2 0 + cp.1, s.data.getD 3 0 + cp.2)
  | "A" => some (s.data.getD 5 0, s.data.getD 6 0)
  | "a" => some (s.data.getD 5 0 + cp.1, s.data.getD 6 0 + cp.2)
  | _ => none

/-- Left-to-right pass of `processPoints`: resolve each segment's point,
reset `first` before adoption on a move, adopt the new point as pen
position and (if unset) as `first`, and clear `first` after a close. -/
def processPointsAux : Option Q2 → Q2 → List Segment → List Segment
  | _, _, [] => []
  | first, cp, s :: rest =>
    let pt := segPoint s first cp
    let first1 := if s.key = "m" ∨ s.key = "M" then none else first
    let st2 : Q2 × Option Q2 :=
      match pt with
      | some p => (p, if first1 = none then some p else first1)
      | none => (cp, first1)
    let first3 := if s.key = "z" ∨ s.key = "Z" then none else st2.2
    { s with point := pt } :: processPointsAux first3 st2.1 rest

/-- `ParsedPath.processPoints` on a segment list: `first` starts unset and
the pen starts at the origin. -/
def processPoints (segs : List Segment) : List Segment :=
  processPointsAux none (0, 0) segs

/-- The `ParsedPath` constructor: `parseData` then `processPoints`; the
resolver only runs when parsing returned normally (a thrown TypeError
propagates, a diverging parse never reaches it). -/
def parsedPath (d : String) : PDResult :=
  match parseData d with
  | .ok segs => .ok (processPoints segs)
  | r => r

/-! ## Path view (`RoughPath`) -/

/-- The `closed` getter of `ParsedPath`: true iff some segment's key is
`z`/`Z` (the source tests `key.toLowerCase() === 'z'`, true exactly for
those two keys; the source's memoization is semantically the identity). -/
def closedOf (segs : List Segment) : Bool :=
  segs.foldl (fun acc s => if s.key = "z" ∨ s.key = "Z" then true else acc) false

/-- One step of the `linearPoints` grouping: flush the accumulated subpath
before a move or close (the source compares `key.toLowerCase()` with `'m'`
and `'z'`, true exactly for the two cases of that letter), skip the close
itself, and append the segment's resolved point when present. -/
def linearStep (st : List (List Q2) × List Q2) (s : Segment) :
    List (List Q2) × List Q2 :=
  let isMove := s.key = "m" ∨ s.key = "M"
  let isClose := s.key = "z" ∨ s.key = "Z"
  let fl : List (List Q2) × List Q2 :=
    if isMove ∨ isClose then
      if st.2.isEmpty then st else (st.1 ++ [st.2], [])
    else st
  if isClose then fl
  else
    match s.point with
    | some p => (fl.1, fl.2 ++ [p])
    | none => fl

/-- The `linearPoints` getter of `RoughPath`: per-subpath polylines of the
resolved points, with a final flush of the trailing accumulation. -/
def linearPointsOf (segs : List Segment) : List (List Q2) :=
  let st := segs.foldl linearStep ([], [])
  if st.2.isEmpty then st.1 else st.1 ++ [st.2]

/-- Renderer-facing mutable state of `RoughPath`: the pen `position` and
the externally settable subpath start `first`. -/
structure RoughPathState where
  position : Q2
  first : Option Q2
  deriving DecidableEq

/-- `RoughPath.setPosition`: store the position and adopt it as `first`
only when `first` is still unset (`null` is the only falsy value of
`Point | null`; a point array is always truthy). -/
def setPosition (st : RoughPathState) (x y : ℚ) : RoughPathState :=
  { position := (x, y),
    first :=
      match st.first with
      | none => some (x, y)
      | some f => some f }

/-! ## Arc converter (`RoughArcConverter`)

The converter is embedded twice.  `arcSetup`/`mkArc`/`getNextSegment` are
an exact-real-arithmetic *reference* model (Lean's conventions `x / 0 = 0`
and `Real.sqrt` of a negative being `0` stand in where the program would
produce IEEE special values).  `arcSetupJS`/`mkArcJS`/`getNextSegmentJS`
below are the *faithful* model over `JSNum`, an idealized IEEE double with
infinities and NaN; the bridge `arcSetupJS_dtheta` proves the two agree
whenever both radii are nonzero and the endpoints differ, and the faithful
model exhibits the NaN cascade (and the resulting never-`null` converter)
at a zero radius. -/

/-- `Math.atan2(y, x)` as the complex argument, valued in `(-π, π]` and `0`
at the origin, as in JavaScript (signed zeros aside). -/
noncomputable def atan2 (y x : ℝ) : ℝ := Complex.arg ⟨x, y⟩

/-- `RoughArcConverter.calculateVectorAngle`: the counterclockwise angle
from `(ux, uy)` to `(vx, vy)`, normalized into `[0, 2π)`. -/
noncomputable def calculateVectorAngle (ux uy vx vy : ℝ) : ℝ :=
  let ta := atan2 uy ux
  let tb := atan2 vy vx
  if tb ≥ ta then tb - ta else 2 * Real.pi - (ta - tb)

/-- The sweep-direction adjustment at the end of the constructor: subtract
or add a full turn when the normalized sweep disagrees with `sweepFlag`. -/
noncomputable def adjustSweep (sweepFlag : Bool) (dtheta : ℝ) : ℝ :=
  if sweepFlag = false ∧ dtheta > 0 then dtheta - 2 * Real.pi
  else if sweepFlag = true ∧ dtheta < 0 then dtheta + 2 * Real.pi
  else dtheta

/-- Quantities computed by the non-degenerate branch of the
`RoughArcConverter` constructor, up to and including the angular sweep. -/
structure ArcSetup where
  rx : ℝ
  ry : ℝ
  sinPhi : ℝ
  cosPhi : ℝ
  center : ℝ × ℝ
  theta1 : ℝ
  dtheta : ℝ

/-- Center parameterization of the endpoint arc (W3C implementation note,
as transcribed in the source): radii correction, root sign, center, start
angle `theta1` and sweep `dtheta`.  Exact-arithmetic reference; see
`arcSetupJS` for the IEEE-faithful version and `arcSetupJS_dtheta` for
their agreement away from zero radii. -/
noncomputable def arcSetup (p q radii : ℝ × ℝ) (angle : ℝ)
    (largeArcFlag sweepFlag : Bool) : ArcSetup :=
  let radPerDeg := Real.pi / 180
  let rx0 := |radii.1|
  let ry0 := |radii.2|
  let sinPhi := Real.sin (angle * radPerDeg)
  let cosPhi := Real.cos (angle * radPerDeg)
  let x1dash := cosPhi * (p.1 - q.1) / 2 + sinPhi * (p.2 - q.2) / 2
  let y1dash := -sinPhi * (p.1 - q.1) / 2 + cosPhi * (p.2 - q.2) / 2
  let numerator := rx0 * rx0 * ry0 * ry0 - rx0 * rx0 * y1dash * y1dash -
    ry0 * ry0 * x1dash * x1dash
  let s := Real.sqrt (1 - numerator / (rx0 * rx0 * ry0 * ry0))
  let rx := if numerator < 0 then rx0 * s else rx0
  let ry := if numerator < 0 then ry0 * s else ry0
  let root :=
    if numerator < 0 then 0
    else (if largeArcFlag = sweepFlag then -1 else 1) *
      Real.sqrt (numerator /
        (rx0 * rx0 * y1dash * y1dash + ry0 * ry0 * x1dash * x1dash))
  let cxdash := root * rx * y1dash / ry
  let cydash := -root * ry * x1dash / rx
  let cx := cosPhi * cxdash - sinPhi * cydash + (p.1 + q.1) / 2
  let cy := sinPhi * cxdash + cosPhi * cydash + (p.2 + q.2) / 2
  let theta1 := calculateVectorAngle 1 0 ((x1dash - cxdash) / rx)
    ((y1dash - cydash) / ry)
  let dtheta := adjustSweep sweepFlag
    (calculateVectorAngle ((x1dash - cxdash) / rx) ((y1dash - cydash) / ry)
      ((-x1dash - cxdash) / rx) ((-y1dash - cydash) / ry))
  ⟨rx, ry, sinPhi, cosPhi, (cx, cy), theta1, dtheta⟩

/-- The mutable fields of a `RoughArcConverter` (`tFactor` is `_T`, `cur`
is the advancing `_from`). -/
structure ArcState where
  segIndex : ℕ
  numSegs : ℕ
  rx : ℝ
  ry : ℝ
  sinPhi : ℝ
  cosPhi : ℝ
  center : ℝ × ℝ
  theta : ℝ
  delta : ℝ
  tFactor : ℝ
  cur : ℝ × ℝ

/-- The `RoughArcConverter` constructor: coincident endpoints return early
with the zero-initialized fields (so `_numSegs = 0`); otherwise the sweep
is split into `ceil(|dtheta / (π/2)|)` segments with the standard
cubic-control magic number `T`.  Exact-arithmetic reference; the early
return precedes all arithmetic, so on coincident endpoints it coincides
with the IEEE-faithful `mkArcJS`. -/
noncomputable def mkArc (p q radii : ℝ × ℝ) (angle : ℝ)
    (largeArcFlag sweepFlag : Bool) : ArcState :=
  if p = q then ⟨0, 0, 0, 0, 0, 0, (0, 0), 0, 0, 0, p⟩
  else
    let su := arcSetup p q radii angle largeArcFlag sweepFlag
    let n : ℕ := ⌈|su.dtheta / (Real.pi / 2)|⌉₊
    let delta := su.dtheta / n
    let tF := 8 / 3 * Real.sin (delta / 4) * Real.sin (delta / 4) /
      Real.sin (delta / 2)
    ⟨0, n, su.rx, su.ry, su.sinPhi, su.cosPhi, su.center, su.theta1, delta, tF, p⟩

/-- One cubic segment produced by the converter. -/
structure RoughArcSegment where
  cp1 : ℝ × ℝ
  cp2 : ℝ × ℝ
  toPoint : ℝ × ℝ

/-- `RoughArcConverter.getNextSegment`: `null` once `_segIndex` reaches
`_numSegs`; otherwise the next cubic piece, advancing `theta`, `_from` and
the counter. -/
noncomputable def getNextSegment (st : ArcState) :
    Option RoughArcSegment × ArcState :=
  if st.segIndex = st.numSegs then (none, st)
  else
    let cosTheta1 := Real.cos st.theta
    let sinTheta1 := Real.sin st.theta
    let theta2 := st.theta + st.delta
    let cosTheta2 := Real.cos theta2
    let sinTheta2 := Real.sin theta2
    let toP : ℝ × ℝ :=
      (st.cosPhi * st.rx * cosTheta2 - st.sinPhi * st.ry * sinTheta2 + st.center.1,
       st.sinPhi * st.rx * cosTheta2 + st.cosPhi * st.ry * sinTheta2 + st.center.2)
    let cp1 : ℝ × ℝ :=
      (st.cur.1 + st.tFactor * (-st.cosPhi * st.rx * sinTheta1 - st.sinPhi * st.ry * cosTheta1),
       st.cur.2 + st.tFactor * (-st.sinPhi * st.rx * sinTheta1 + st.cosPhi * st.ry * cosTheta1))
    let cp2 : ℝ × ℝ :=
      (toP.1 + st.tFactor * (st.cosPhi * st.rx * sinTheta2 + st.sinPhi * st.ry * cosTheta2),
       toP.2 + st.tFactor * (st.sinPhi * st.rx * sinTheta2 - st.cosPhi * st.ry * cosTheta2))
    (some ⟨cp1, cp2, toP⟩,
     { st with theta := theta2, cur := toP, segIndex := st.segIndex + 1 })


/-! ## IEEE-faithful arc converter over `JSNum` -/

/-- An idealized IEEE-754 double: a finite real (of unbounded precision),
a signed infinity, or NaN.  Signed zero is not modelled (the model's `0`
behaves as IEEE `+0`); none of the verified statements exercises a
negative-zero path. -/
inductive JSNum
  | num (x : ℝ)
  | posInf
  | negInf
  | nan

/-- IEEE addition. -/
noncomputable def JSNum.add : JSNum → JSNum → JSNum
  | num a, num b => num (a + b)
  | nan, _ => nan
  | _, nan => nan
  | posInf, negInf => nan
  | negInf, posInf => nan
  | posInf, _ => posInf
  | _, posInf => posInf
  | negInf, _ => negInf
  | _, negInf => negInf

/-- IEEE negation. -/
noncomputable def JSNum.neg : JSNum → JSNum
  | num a => num (-a)
  | posInf => negInf
  | negInf => posInf
  | nan => nan

/-- IEEE subtraction (`a - b = a + (-b)`). -/
noncomputable def JSNum.sub (a b : JSNum) : JSNum := a.add b.neg

/-- IEEE multiplication (`0 * ∞ = NaN`). -/
noncomputable def JSNum.mul : JSNum → JSNum → JSNum
  | num a, num b => num (a * b)
  | nan, _ => nan
  | _, nan => nan
  | posInf, posInf => posInf
  | posInf, negInf => negInf
  | negInf, posInf => negInf
  | negInf, negInf => posInf
  | num a, posInf => if a = 0 then nan else if 0 < a then posInf else negInf
  | posInf, num a => if a = 0 then nan else if 0 < a then posInf else negInf
  | num a, negInf => if a = 0 then nan else if 0 < a then negInf else posInf
  | negInf, num a => if a = 0 then nan else if 0 < a then negInf else posInf

/-- IEEE division (`0/0 = NaN`, `x/+0 = ±∞` for `x ≠ 0`, `∞/∞ = NaN`,
finite over infinite is zero). -/
noncomputable def JSNum.div : JSNum → JSNum → JSNum
  | num a, num b =>
    if b = 0 then (if a = 0 then nan else if 0 < a then posInf else negInf)
    else num (a / b)
  | nan, _ => nan
  | _, nan => nan
  | posInf, posInf => nan
  | posInf, negInf => nan
  | negInf, posInf => nan
  | negInf, negInf => nan
  | posInf, num b => if 0 ≤ b then posInf else negInf
  | negInf, num b => if 0 ≤ b then negInf else posInf
  | num _, posInf => num 0
  | num _, negInf => num 0

/-- `Math.abs`. -/
noncomputable def JSNum.abs : JSNum → JSNum
  | num a => num |a|
  | posInf => posInf
  | negInf => posInf
  | nan => nan

/-- `Math.sqrt` (`NaN` on negative arguments). -/
noncomputable def JSNum.sqrt : JSNum → JSNum
  | num a => if a < 0 then nan else num (Real.sqrt a)
  | posInf => posInf
  | negInf => nan
  | nan => nan

/-- `Math.sin` (`NaN` on infinities). -/
noncomputable def JSNum.sin : JSNum → JSNum
  | num a => num (Real.sin a)
  | _ => nan

/-- `Math.cos` (`NaN` on infinities). -/
noncomputable def JSNum.cos : JSNum → JSNum
  | num a => num (Real.cos a)
  | _ => nan

/-- `Math.ceil` (identity on the special values). -/
noncomputable def JSNum.ceil : JSNum → JSNum
  | num a => num ((⌈a⌉ : ℤ) : ℝ)
  | posInf => posInf
  | negInf => negInf
  | nan => nan

/-- `Math.atan2` with the IEEE special-value table (`NaN` absorbs; the
infinite cases take the quadrant-diagonal values; zero stands for `+0`). -/
noncomputable def jsAtan2 : JSNum → JSNum → JSNum
  | JSNum.nan, _ => JSNum.nan
  | _, JSNum.nan => JSNum.nan
  | JSNum.num y, JSNum.num x => JSNum.num (atan2 y x)
  | JSNum.posInf, JSNum.posInf => JSNum.num (Real.pi / 4)
  | JSNum.posInf, JSNum.negInf => JSNum.num (3 * Real.pi / 4)
  | JSNum.negInf, JSNum.posInf => JSNum.num (-(Real.pi / 4))
  | JSNum.negInf, JSNum.negInf => JSNum.num (-(3 * Real.pi / 4))
  | JSNum.posInf, JSNum.num _ => JSNum.num (Real.pi / 2)
  | JSNum.negInf, JSNum.num _ => JSNum.num (-(Real.pi / 2))
  | JSNum.num _, JSNum.posInf => JSNum.num 0
  | JSNum.num y, JSNum.negInf => if 0 ≤ y then JSNum.num Real.pi else JSNum.num (-Real.pi)

/-- Strict `<` (false whenever NaN is involved). -/
noncomputable def JSNum.lt : JSNum → JSNum → Bool
  | num a, num b => decide (a < b)
  | nan, _ => false
  | _, nan => false
  | posInf, _ => false
  | negInf, posInf => true
  | negInf, num _ => true
  | negInf, negInf => false
  | num _, posInf => true
  | num _, negInf => false

/-- Non-strict `≤` (false whenever NaN is involved). -/
noncomputable def JSNum.le : JSNum → JSNum → Bool
  | num a, num b => decide (a ≤ b)
  | nan, _ => false
  | _, nan => false
  | negInf, _ => true
  | _, posInf => true
  | posInf, _ => false
  | num _, negInf => false

/-- `>` as in the source's comparisons. -/
noncomputable def JSNum.gt (a b : JSNum) : Bool := JSNum.lt b a

/-- `>=` as in the source's comparisons. -/
noncomputable def JSNum.ge (a b : JSNum) : Bool := JSNum.le b a

/-- Strict equality `===` (false whenever NaN is involved, even
`NaN === NaN`). -/
noncomputable def JSNum.eq : JSNum → JSNum → Bool
  | num a, num b => decide (a = b)
  | posInf, posInf => true
  | negInf, negInf => true
  | _, _ => false

/-- `RoughArcConverter.calculateVectorAngle` over IEEE doubles.  The NaN
comparison rule routes any NaN input through the `else` branch, which then
propagates the NaN. -/
noncomputable def calculateVectorAngleJS (ux uy vx vy : JSNum) : JSNum :=
  let ta := jsAtan2 uy ux
  let tb := jsAtan2 vy vx
  if JSNum.ge tb ta then JSNum.sub tb ta
  else JSNum.sub (JSNum.num (2 * Real.pi)) (JSNum.sub ta tb)

/-- The fields of the non-degenerate constructor branch over IEEE doubles,
through the angular sweep (mirror of `arcSetup`). -/
structure ArcSetupJS where
  rx : JSNum
  ry : JSNum
  sinPhi : JSNum
  cosPhi : JSNum
  center : JSNum × JSNum
  theta1 : JSNum
  dtheta : JSNum

/-- The `RoughArcConverter` constructor body over IEEE doubles, through
the angular sweep.  The inputs are finite coordinates, injected by `num`;
every operation is the IEEE one, so a zero radius sends `0/0 = NaN`
through the rest of the computation exactly as in JavaScript. -/
noncomputable def arcSetupJS (p q radii : ℝ × ℝ) (angle : ℝ)
    (largeArcFlag sweepFlag : Bool) : ArcSetupJS :=
  let rx0 := JSNum.abs (JSNum.num radii.1)
  let ry0 := JSNum.abs (JSNum.num radii.2)
  let sinPhi := JSNum.sin (JSNum.mul (JSNum.num angle) (JSNum.num (Real.pi / 180)))
  let cosPhi := JSNum.cos (JSNum.mul (JSNum.num angle) (JSNum.num (Real.pi / 180)))
  let x1dash := JSNum.add
    (JSNum.div (JSNum.mul cosPhi (JSNum.sub (JSNum.num p.1) (JSNum.num q.1)))
      (JSNum.num 2))
    (JSNum.div (JSNum.mul sinPhi (JSNum.sub (JSNum.num p.2) (JSNum.num q.2)))
      (JSNum.num 2))
  let y1dash := JSNum.add
    (JSNum.div (JSNum.mul (JSNum.neg sinPhi) (JSNum.sub (JSNum.num p.1) (JSNum.num q.1)))
      (JSNum.num 2))
    (JSNum.div (JSNum.mul cosPhi (JSNum.sub (JSNum.num p.2) (JSNum.num q.2)))
      (JSNum.num 2))
  let numerator := JSNum.sub (JSNum.sub
      (JSNum.mul (JSNum.mul (JSNum.mul rx0 rx0) ry0) ry0)
      (JSNum.mul (JSNum.mul (JSNum.mul rx0 rx0) y1dash) y1dash))
    (JSNum.mul (JSNum.mul (JSNum.mul ry0 ry0) x1dash) x1dash)
  let s := JSNum.sqrt (JSNum.sub (JSNum.num 1)
    (JSNum.div numerator (JSNum.mul (JSNum.mul (JSNum.mul rx0 rx0) ry0) ry0)))
  let rx := if JSNum.lt numerator (JSNum.num 0) then JSNum.mul rx0 s else rx0
  let ry := if JSNum.lt numerator (JSNum.num 0) then JSNum.mul ry0 s else ry0
  let root :=
    if JSNum.lt numerator (JSNum.num 0) then JSNum.num 0
    else JSNum.mul (JSNum.num (if largeArcFlag = sweepFlag then -1 else 1))
      (JSNum.sqrt (JSNum.div numerator
        (JSNum.add (JSNum.mul (JSNum.mul (JSNum.mul rx0 rx0) y1dash) y1dash)
          (JSNum.mul (JSNum.mul (JSNum.mul ry0 ry0) x1dash) x1dash))))
  let cxdash := JSNum.div (JSNum.mul (JSNum.mul root rx) y1dash) ry
  let cydash := JSNum.div (JSNum.mul (JSNum.mul (JSNum.neg root) ry) x1dash) rx
  let cx := JSNum.add
    (JSNum.sub (JSNum.mul cosPhi cxdash) (JSNum.mul sinPhi cydash))
    (JSNum.div (JSNum.add (JSNum.num p.1) (JSNum.num q.1)) (JSNum.num 2))
  let cy := JSNum.add
    (JSNum.add (JSNum.mul sinPhi cxdash) (JSNum.mul cosPhi cydash))
    (JSNum.div (JSNum.add (JSNum.num p.2) (JSNum.num q.2)) (JSNum.num 2))
  let theta1 := calculateVectorAngleJS (JSNum.num 1) (JSNum.num 0)
    (JSNum.div (JSNum.sub x1dash cxdash) rx) (JSNum.div (JSNum.sub y1dash cydash) ry)
  let dtheta0 := calculateVectorAngleJS
    (JSNum.div (JSNum.sub x1dash cxdash) rx) (JSNum.div (JSNum.sub y1dash cydash) ry)
    (JSNum.div (JSNum.sub (JSNum.neg x1dash) cxdash) rx)
    (JSNum.div (JSNum.sub (JSNum.neg y1dash) cydash) ry)
  let dtheta :=
    if sweepFlag = false ∧ JSNum.gt dtheta0 (JSNum.num 0) then
      JSNum.sub dtheta0 (JSNum.num (2 * Real.pi))
    else if sweepFlag = true ∧ JSNum.lt dtheta0 (JSNum.num 0) then
      JSNum.add dtheta0 (JSNum.num (2 * Real.pi))
    else dtheta0
  ⟨rx, ry, sinPhi, cosPhi, (cx, cy), theta1, dtheta⟩

/-- The mutable converter fields over IEEE doubles. -/
structure ArcStateJS where
  segIndex : JSNum
  numSegs : JSNum
  rx : JSNum
  ry : JSNum
  sinPhi : JSNum
  cosPhi : JSNum
  center : JSNum × JSNum
  theta : JSNum
  delta : JSNum
  tFactor : JSNum
  cur : JSNum × JSNum

/-- The `RoughArcConverter` constructor over IEEE doubles.  The endpoint
coincidence test `from[0] === to[0] && from[1] === to[1]` is plain real
equality on the finite inputs.  `_numSegs` stays a raw `Math.ceil` result:
NaN when the sweep is NaN. -/
noncomputable def mkArcJS (p q radii : ℝ × ℝ) (angle : ℝ)
    (largeArcFlag sweepFlag : Bool) : ArcStateJS :=
  if p.1 = q.1 ∧ p.2 = q.2 then
    ⟨JSNum.num 0, JSNum.num 0, JSNum.num 0, JSNum.num 0, JSNum.num 0, JSNum.num 0,
      (JSNum.num 0, JSNum.num 0), JSNum.num 0, JSNum.num 0, JSNum.num 0,
      (JSNum.num p.1, JSNum.num p.2)⟩
  else
    let su := arcSetupJS p q radii angle largeArcFlag sweepFlag
    let n := JSNum.ceil (JSNum.abs (JSNum.div su.dtheta (JSNum.num (Real.pi / 2))))
    let delta := JSNum.div su.dtheta n
    let tF := JSNum.div
      (JSNum.mul (JSNum.mul (JSNum.num (8 / 3))
          (JSNum.sin (JSNum.div delta (JSNum.num 4))))
        (JSNum.sin (JSNum.div delta (JSNum.num 4))))
      (JSNum.sin (JSNum.div delta (JSNum.num 2)))
    ⟨JSNum.num 0, n, su.rx, su.ry, su.sinPhi, su.cosPhi, su.center, su.theta1,
      delta, tF, (JSNum.num p.1, JSNum.num p.2)⟩

/-- One cubic segment over IEEE doubles. -/
structure RoughArcSegmentJS where
  cp1 : JSNum × JSNum
  cp2 : JSNum × JSNum
  toPoint : JSNum × JSNum

/-- `RoughArcConverter.getNextSegment` over IEEE doubles.  The guard is
the source's `_segIndex === _numSegs`: when `_numSegs` is NaN the strict
equality is always false, so a segment is produced on every call. -/
noncomputable def getNextSegmentJS (st : ArcStateJS) :
    Option RoughArcSegmentJS × ArcStateJS :=
  if JSNum.eq st.segIndex st.numSegs then (none, st)
  else
    let cosTheta1 := JSNum.cos st.theta
    let sinTheta1 := JSNum.sin st.theta
    let theta2 := JSNum.add st.theta st.delta
    let cosTheta2 := JSNum.cos theta2
    let sinTheta2 := JSNum.sin theta2
    let toX := JSNum.add
      (JSNum.sub (JSNum.mul (JSNum.mul st.cosPhi st.rx) cosTheta2)
        (JSNum.mul (JSNum.mul st.sinPhi st.ry) sinTheta2))
      st.center.1
    let toY := JSNum.add
      (JSNum.add (JSNum.mul (JSNum.mul st.sinPhi st.rx) cosTheta2)
        (JSNum.mul (JSNum.mul st.cosPhi st.ry) sinTheta2))
      st.center.2
    let cp1x := JSNum.add st.cur.1 (JSNum.mul st.tFactor
      (JSNum.sub (JSNum.mul (JSNum.mul (JSNum.neg st.cosPhi) st.rx) sinTheta1)
        (JSNum.mul (JSNum.mul st.sinPhi st.ry) cosTheta1)))
    let cp1y := JSNum.add st.cur.2 (JSNum.mul st.tFactor
      (JSNum.add (JSNum.mul (JSNum.mul (JSNum.neg st.sinPhi) st.rx) sinTheta1)
        (JSNum.mul (JSNum.mul st.cosPhi st.ry) cosTheta1)))
    let cp2x := JSNum.add toX (JSNum.mul st.tFactor
      (JSNum.add (JSNum.mul (JSNum.mul st.cosPhi st.rx) sinTheta2)
        (JSNum.mul (JSNum.mul st.sinPhi st.ry) cosTheta2)))
    let cp2y := JSNum.add toY (JSNum.mul st.tFactor
      (JSNum.sub (JSNum.mul (JSNum.mul st.sinPhi st.rx) sinTheta2)
        (JSNum.mul (JSNum.mul st.cosPhi st.ry) cosTheta2)))
    (some ⟨(cp1x, cp1y), (cp2x, cp2y), (toX, toY)⟩,
     { st with
        theta := theta2
        cur := (toX, toY)
        segIndex := JSNum.add st.segIndex (JSNum.num 1) })

/-- State after `n` calls to `getNextSegmentJS`. -/
noncomputable def arcRunJS (st : ArcStateJS) : ℕ → ArcStateJS
  | 0 => st
  | n + 1 => (getNextSegmentJS (arcRunJS st n)).2

/-! ## Path fitter (`PathFitter`) -/

/-- Modelled from the spec: the externally supplied two-point Euclidean
distance `lineLength` from the geometry module (not part of this file's
source), applied to a two-point line. -/
noncomputable def lineLength (p q : Q2) : ℝ :=
  Real.sqrt (((p.1 - q.1 : ℚ) : ℝ) ^ 2 + ((p.2 - q.2 : ℚ) : ℝ) ^ 2)

/-- Heron-formula area of the triangle around interior point `i`, exactly
as computed in `PathFitter.reduce`. -/
noncomputable def triArea (points : List Q2) (i : ℕ) : ℝ :=
  let a := lineLength (points.getD (i - 1) (0, 0)) (points.getD i (0, 0))
  let b := lineLength (points.getD i (0, 0)) (points.getD (i + 1) (0, 0))
  let c := lineLength (points.getD (i - 1) (0, 0)) (points.getD (i + 1) (0, 0))
  let s := (a + b + c) / 2
  Real.sqrt (s * (s - a) * (s - b) * (s - c))

/-- The `minArea`/`minIndex` scan over the interior indices
`1 ≤ i ≤ length - 2`, starting from `(-1, -1)` as in the source. -/
noncomputable def minAreaFold (points : List Q2) : ℝ × ℤ :=
  (List.range' 1 (points.length - 2)).foldl
    (fun acc i =>
      if acc.1 < 0 ∨ triArea points i < acc.1 then (triArea points i, (i : ℤ))
      else acc)
    (-1, -1)

/-- Index of the interior point with the smallest triangle area, `-1` when
there is none. -/
noncomputable def minAreaIndex (points : List Q2) : ℤ := (minAreaFold points).2

/-- An update of the scan always records an interior index. -/
theorem minAreaFold_snd (points : List Q2) :
    (minAreaFold points).2 = -1 ∨
      ∃ i : ℕ, (minAreaFold points).2 = (i : ℤ) ∧ 1 ≤ i ∧ i + 1 < points.length := by
  have key : ∀ (l : List ℕ) (acc : ℝ × ℤ),
      (∀ i ∈ l, 1 ≤ i ∧ i + 1 < points.length) →
      (acc.2 = -1 ∨ ∃ i : ℕ, acc.2 = (i : ℤ) ∧ 1 ≤ i ∧ i + 1 < points.length) →
      ((l.foldl (fun acc i =>
          if acc.1 < 0 ∨ triArea points i < acc.1 then (triArea points i, (i : ℤ))
          else acc) acc).2 = -1 ∨
        ∃ i : ℕ, (l.foldl (fun acc i =>
          if acc.1 < 0 ∨ triArea points i < acc.1 then (triArea points i, (i : ℤ))
          else acc) acc).2 = (i : ℤ) ∧ 1 ≤ i ∧ i + 1 < points.length) := by
    intro l
    induction l with
    | nil => intro acc _ hacc; exact hacc
    | cons a t ih =>
      intro acc hl hacc
      simp only [List.foldl_cons]
      apply ih
      · intro i hi; exact hl i (List.mem_cons_of_mem _ hi)
      · by_cases hc : acc.1 < 0 ∨ triArea points a < acc.1
        · simp only [if_pos hc]
          exact Or.inr ⟨a, rfl, (hl a (List.mem_cons_self _ _)).1,
            (hl a (List.mem_cons_self _ _)).2⟩
        · simpa only [if_neg hc] using hacc
  refine key _ _ ?_ (Or.inl rfl)
  intro i hi
  rw [List.mem_range'_1] at hi
  omega

/-- The `while` loop of `PathFitter.reduce`: as long as the list is longer
than the target, remove the interior point of minimal area; stop (`break`)
when the scan found no interior index. -/
noncomputable def reduceLoop (count : ℕ) (points : List Q2) : List Q2 :=
  if h : count < points.length then
    if hm : 0 < minAreaIndex points then
      reduceLoop count (points.eraseIdx (minAreaIndex points).toNat)
    else points
  else points
termination_by points.length
decreasing_by
  rcases minAreaFold_snd points with hcase | ⟨i, hi, h1, hlt⟩
  · exact absurd hcase (by simp only [minAreaIndex] at hm; omega)
  · have ht : (minAreaIndex points).toNat = i := by simp [minAreaIndex, hi]
    rw [ht, List.length_eraseIdx, if_pos (by omega : i < points.length)]
    omega

/-- `PathFitter.reduce`: return the list unchanged when already at or
below the target, otherwise run the removal loop. -/
noncomputable def reduce (set : List Q2) (count : ℕ) : List Q2 :=
  if set.length ≤ count then set else reduceLoop count set

/-- Modelled from the spec: the host's default numeric-to-string
conversion used by the serializer; rendered here as Lean's canonical
rational notation (the claims depend only on the command structure of the
output, not on the digit strings). -/
def numStr (q : ℚ) : String := toString q

/-- Per-subpath serialization of `PathFitter.fit`: an absolute `M` to the
first point, absolute `L` to every later point, and a trailing `'z '`
exactly when the fitter's `closed` flag is set. -/
def renderSet (closed : Bool) (set : List Q2) : String :=
  (match set with
   | [] => ""
   | p :: rest =>
     "M" ++ numStr p.1 ++ "," ++ numStr p.2 ++
       rest.foldl (fun d q => d ++ "L" ++ numStr q.1 ++ "," ++ numStr q.2) "") ++
  (if closed then "z " else "")

/-- The first loop of `PathFitter.fit`: the retained, reduced subpaths.
`estLength` is `Math.floor(simplification * length)`. -/
noncomputable def fitOutSets (sets : List (List Q2)) (simplification : ℚ) :
    List (List Q2) :=
  sets.foldl
    (fun outSets set =>
      let est : ℤ := ⌊simplification * (set.length : ℚ)⌋
      if est < 5 then
        if set.length ≤ 5 then outSets
        else outSets ++ [reduce set 5]
      else outSets ++ [reduce set est.toNat])
    []

/-- `PathFitter.fit`: serialize every retained subpath in order (the
source's single string accumulator concatenates exactly these pieces). -/
noncomputable def fit (sets : List (List Q2)) (closed : Bool)
    (simplification : ℚ) : String :=
  String.join ((fitOutSets sets simplification).map (renderSet closed))

/-- Following the spec's words, for comparison with `fit`: drop a subpath
iff it has at most 5 points and a computed target below 5; otherwise
reduce it to `floor(ratio * length)` raised to a minimum of 5, and
serialize as `M` plus `L`s with `'z '` per subpath exactly when closed. -/
noncomputable def fitSpec (sets : List (List Q2)) (closed : Bool)
    (r : ℚ) : String :=
  String.join ((sets.filterMap (fun set =>
    if set.length ≤ 5 ∧ ⌊r * (set.length : ℚ)⌋ < 5 then none
    else some (reduce set (max ⌊r * (set.length : ℚ)⌋ 5).toNat))).map
      (renderSet closed))

/-! ## Theorems -/

/-- C10: after `setPosition(x, y)` the position is `[x, y]`, and `first`
becomes `[x, y]` exactly when it was previously unset, otherwise it is
left unchanged (`Option.getD` packages both cases). -/
theorem setPosition_spec (st : RoughPathState) (x y : ℚ) :
    (setPosition st x y).position = (x, y) ∧
    (setPosition st x y).first = some (st.first.getD (x, y)) := by
  refine ⟨rfl, ?_⟩
  cases h : st.first <;> simp [setPosition, h]

/-- C6: a converter built with coincident endpoints takes the constructor's
early return, so the very first `getNextSegment` call yields `null`. -/
theorem arc_coincident_empty (p q radii : ℝ × ℝ) (angle : ℝ)
    (largeArcFlag sweepFlag : Bool) (h : p = q) :
    (getNextSegment (mkArc p q radii angle largeArcFlag sweepFlag)).1 = none := by
  subst h
  simp [mkArc, getNextSegment]

/-- Witness for `arc_coincident_empty` at a concrete degenerate arc. -/
theorem arc_coincident_empty_witness :
    (getNextSegment (mkArc ((1 : ℝ), (2 : ℝ)) (1, 2) (3, 4) 5 true false)).1 = none :=
  arc_coincident_empty _ _ _ _ _ _ rfl

/-- The two-vector angle is normalized into `[0, 2π)`. -/
theorem calculateVectorAngle_bounds (ux uy vx vy : ℝ) :
    0 ≤ calculateVectorAngle ux uy vx vy ∧
      calculateVectorAngle ux uy vx vy < 2 * Real.pi := by
  have h1 : -Real.pi < Complex.arg ⟨ux, uy⟩ := Complex.neg_pi_lt_arg _
  have h2 : Complex.arg ⟨ux, uy⟩ ≤ Real.pi := Complex.arg_le_pi _
  have h3 : -Real.pi < Complex.arg ⟨vx, vy⟩ := Complex.neg_pi_lt_arg _
  have h4 : Complex.arg ⟨vx, vy⟩ ≤ Real.pi := Complex.arg_le_pi _
  simp only [calculateVectorAngle, atan2]
  split <;> constructor <;> linarith

/-- The sweep-direction adjustment keeps the sweep strictly inside a full
turn in absolute value. -/
theorem adjustSweep_bound (sweepFlag : Bool) (x : ℝ) (h0 : 0 ≤ x)
    (h2 : x < 2 * Real.pi) : |adjustSweep sweepFlag x| < 2 * Real.pi := by
  have hpi := Real.pi_pos
  unfold adjustSweep
  split
  · next hc => rw [abs_lt]; constructor <;> linarith [hc.2]
  · split
    · next hc => rw [abs_lt]; constructor <;> linarith [hc.2]
    · rw [abs_of_nonneg h0]; exact h2

/-- The computed angular sweep of any arc setup is strictly less than a
full turn in absolute value. -/
theorem arcSetup_dtheta_bound (p q radii : ℝ × ℝ) (angle : ℝ)
    (largeArcFlag sweepFlag : Bool) :
    |(arcSetup p q radii angle largeArcFlag sweepFlag).dtheta| < 2 * Real.pi := by
  simp only [arcSetup]
  exact adjustSweep_bound _ _ (calculateVectorAngle_bounds _ _ _ _).1
    (calculateVectorAngle_bounds _ _ _ _).2

/-- A successfully read parameter list has exactly the requested length. -/
theorem readParams_length (tokens : List PathToken) :
    ∀ pl start params, readParams tokens start pl = .okP params →
      params.length = pl := by
  intro pl
  induction pl with
  | zero =>
    intro start params h
    simp only [readParams, ParamsRes.okP.injEq] at h
    rw [← h]
    rfl
  | succ k ih =>
    intro start params h
    simp only [readParams] at h
    cases htok : tokens[start]? with
    | none => rw [htok] at h; cases h
    | some t =>
      cases t with
      | command c => rw [htok] at h; cases h
      | endOfD => rw [htok] at h; cases h
      | number v =>
        rw [htok] at h
        cases hrec : readParams tokens (start + 1) k with
        | okP ps =>
          rw [hrec] at h
          cases h
          simp [ih _ _ hrec]
        | notNumber => rw [hrec] at h; cases h
        | oobCrash => rw [hrec] at h; cases h

/-- The guarded consumption step preserves the arity invariant. -/
theorem parseConsume_arity (tokens : List PathToken)
    (recur : ℕ → Option PathToken → String → List Segment → PDResult)
    (hrec : ∀ i t v s, (∀ x ∈ s, PARAMS_LENGTH x.key = some x.data.length) →
      ∀ x ∈ segsOf (recur i t v s), PARAMS_LENGTH x.key = some x.data.length)
    (index1 : ℕ) (tok : PathToken) (tv1 : String) (segs : List Segment)
    (hsegs : ∀ x ∈ segs, PARAMS_LENGTH x.key = some x.data.length) :
    ∀ x ∈ segsOf (parseConsume tokens recur index1 tok tv1 segs),
      PARAMS_LENGTH x.key = some x.data.length := by
  cases hpl : PARAMS_LENGTH tv1 with
  | none =>
    simp only [parseConsume, hpl]
    exact hrec _ _ _ _ hsegs
  | some pl =>
    simp only [parseConsume, hpl]
    split
    · cases hread : readParams tokens index1 pl with
      | oobCrash => simp only [hread]; exact hsegs
      | notNumber => simp only [hread]; exact hsegs
      | okP params =>
        simp only [hread]
        apply hrec
        intro x hx
        rcases List.mem_append.mp hx with hx | hx
        · exact hsegs x hx
        · rcases List.mem_singleton.mp hx with rfl
          show PARAMS_LENGTH tv1 = some params.length
          rw [hpl, readParams_length tokens pl index1 params hread]
    · exact hrec _ _ _ _ hsegs

/-- The loop body preserves the arity invariant: every accumulated segment
has exactly the table arity of its key. -/
theorem parseBody_arity (tokens : List PathToken)
    (recur : ℕ → Option PathToken → String → List Segment → PDResult)
    (hrec : ∀ i t v s, (∀ x ∈ s, PARAMS_LENGTH x.key = some x.data.length) →
      ∀ x ∈ segsOf (recur i t v s), PARAMS_LENGTH x.key = some x.data.length)
    (index : ℕ) (tokOpt : Option PathToken) (tv : String) (segs : List Segment)
    (hsegs : ∀ x ∈ segs, PARAMS_LENGTH x.key = some x.data.length) :
    ∀ x ∈ segsOf (parseBody tokens recur index tokOpt tv segs),
      PARAMS_LENGTH x.key = some x.data.length := by
  cases tokOpt with
  | none =>
    simp only [parseBody]
    exact hsegs
  | some tok =>
    by_cases he : tok = PathToken.endOfD
    · simp only [parseBody, if_pos he]
      exact hsegs
    · cases hplan : parsePlan tv index tok with
      | none =>
        simp only [parseBody, if_neg he, hplan]
        intro x hx
        cases hx
      | some pr =>
        obtain ⟨index1, tv1⟩ := pr
        simp only [parseBody, if_neg he, hplan]
        exact parseConsume_arity tokens recur hrec index1 tok tv1 segs hsegs

/-- The parsing loop preserves the arity invariant at every fuel. -/
theorem parseLoop_arity (tokens : List PathToken) :
    ∀ fuel index tokOpt tv segs,
      (∀ x ∈ segs, PARAMS_LENGTH x.key = some x.data.length) →
      ∀ x ∈ segsOf (parseLoop tokens fuel index tokOpt tv segs),
        PARAMS_LENGTH x.key = some x.data.length := by
  intro fuel
  induction fuel with
  | zero => intro i t v s hs; exact hs
  | succ k ih =>
    intro i t v s hs
    exact parseBody_arity tokens (parseLoop tokens k)
      (fun i t v s hsx => ih i t v s hsx) i t v s hs

/-- Every run of `parseData` is one of: the unreachable double-retry crash
with no segments, the plain parse, or the parse of the `M0,0`-prefixed
description. -/
theorem parseData_cases (d : String) :
    parseData d = PDResult.crash [] ∨ parseData d = parseDataNoRetry d ∨
      parseData d = parseDataNoRetry ("M0,0" ++ d) := by
  unfold parseData
  cases parseDataNoRetry d with
  | needsMove =>
    cases parseDataNoRetry ("M0,0" ++ d) with
    | needsMove => left; rfl
    | ok s => right; right; rfl
    | crash s => right; right; rfl
    | fuelOut s => right; right; rfl
  | ok s => right; left; rfl
  | crash s => right; left; rfl
  | fuelOut s => right; left; rfl

/-- `parseData` only ever accumulates segments of table arity. -/
theorem parseData_arity (d : String) :
    ∀ x ∈ segsOf (parseData d), PARAMS_LENGTH x.key = some x.data.length := by
  have hnil : ∀ x ∈ ([] : List Segment), PARAMS_LENGTH x.key = some x.data.length := by
    intro x hx
    cases hx
  have h1 : ∀ e : String, ∀ x ∈ segsOf (parseDataNoRetry e),
      PARAMS_LENGTH x.key = some x.data.length := by
    intro e
    unfold parseDataNoRetry
    exact parseLoop_arity (tokenize e) _ _ _ _ _ hnil
  rcases parseData_cases d with h | h | h <;> rw [h]
  · exact hnil
  · exact h1 d
  · exact h1 ("M0,0" ++ d)

/-- Resolution only attaches points: keys and parameter lists of the
resolved segments come from the parsed ones. -/
theorem processPointsAux_keydata :
    ∀ (segs : List Segment) (first : Option Q2) (cp : Q2),
      ∀ x ∈ processPointsAux first cp segs,
        ∃ y ∈ segs, x.key = y.key ∧ x.data = y.data := by
  intro segs
  induction segs with
  | nil => intro f cp x hx; cases hx
  | cons s rest ih =>
    intro f cp x hx
    simp only [processPointsAux] at hx
    rcases List.mem_cons.mp hx with h | h
    · exact ⟨s, List.mem_cons_self _ _, by rw [h], by rw [h]⟩
    · obtain ⟨y, hy, hk, hd⟩ := ih _ _ _ h
      exact ⟨y, List.mem_cons_of_mem _ hy, hk, hd⟩

/-- C3 (amended): the arity table the parser actually consumes by is
`A/a:7, C/c:6, H/h:1, L/l:2, M/m:2, Q/q:4, S/s:4, T:4, t:2, V/v:1, Z/z:0`
(uppercase `T` takes 4 parameters but lowercase `t` takes 2), and every
segment of every parse outcome carries exactly the table arity of its key. -/
theorem segment_arity_table :
    (PARAMS_LENGTH "A" = some 7 ∧ PARAMS_LENGTH "a" = some 7 ∧
     PARAMS_LENGTH "C" = some 6 ∧ PARAMS_LENGTH "c" = some 6 ∧
     PARAMS_LENGTH "H" = some 1 ∧ PARAMS_LENGTH "h" = some 1 ∧
     PARAMS_LENGTH "L" = some 2 ∧ PARAMS_LENGTH "l" = some 2 ∧
     PARAMS_LENGTH "M" = some 2 ∧ PARAMS_LENGTH "m" = some 2 ∧
     PARAMS_LENGTH "Q" = some 4 ∧ PARAMS_LENGTH "q" = some 4 ∧
     PARAMS_LENGTH "S" = some 4 ∧ PARAMS_LENGTH "s" = some 4 ∧
     PARAMS_LENGTH "T" = some 4 ∧ PARAMS_LENGTH "t" = some 2 ∧
     PARAMS_LENGTH "V" = some 1 ∧ PARAMS_LENGTH "v" = some 1 ∧
     PARAMS_LENGTH "Z" = some 0 ∧ PARAMS_LENGTH "z" = some 0) ∧
    ∀ d : String, ∀ x ∈ segsOf (parsedPath d),
      PARAMS_LENGTH x.key = some x.data.length := by
  refine ⟨by decide, ?_⟩
  intro d x hx
  unfold parsedPath at hx
  cases hr : parseData d with
  | ok s =>
    rw [hr] at hx
    obtain ⟨y, hy, hk, hd⟩ := processPointsAux_keydata s none (0, 0) x hx
    rw [hk, hd]
    exact parseData_arity d y (hr ▸ hy)
  | crash s => rw [hr] at hx; exact parseData_arity d x (hr ▸ hx)
  | fuelOut s => rw [hr] at hx; exact parseData_arity d x (hr ▸ hx)
  | needsMove => rw [hr] at hx; cases hx

/-- Witness for `segment_arity_table`: the uppercase-`T` segment of
`"M0,0T1,2,3,4"` carries its table arity (4). -/
theorem segment_arity_table_witness :
    PARAMS_LENGTH (Segment.key ⟨"T", [1, 2, 3, 4], some (1, 2)⟩) =
      some (Segment.data ⟨"T", [1, 2, 3, 4], some (1, 2)⟩).length :=
  segment_arity_table.2 "M0,0T1,2,3,4" ⟨"T", [1, 2, 3, 4], some (1, 2)⟩ (by
    have h : segsOf (parsedPath "M0,0T1,2,3,4") =
        [⟨"M", [0, 0], some (0, 0)⟩, ⟨"T", [1, 2, 3, 4], some (1, 2)⟩] := by decide
    rw [h]
    exact List.mem_cons_of_mem _ (List.mem_singleton.mpr rfl))

/-- C3 counterexample: the parser consumes exactly 2 parameters for a
lowercase `t` segment (`PARAMS_LENGTH` maps `t` to 2, not 4), refuting the
claimed `T/t:4` for the lowercase case. -/
theorem t_arity_counterexample :
    parseData "M0,0t1,2" = PDResult.ok [⟨"M", [0, 0], none⟩, ⟨"t", [1, 2], none⟩] ∧
    PARAMS_LENGTH "t" = some 2 ∧ ¬ PARAMS_LENGTH "t" = some 4 := by
  decide

/-- C4: `"M0,0 L10,0 L10,10 Z"` parses to exactly 4 segments with resolved
points (0,0), (10,0), (10,10), (0,0) in order, the closed flag is true,
and `linearPoints` is the single subpath [(0,0),(10,0),(10,10)]. -/
theorem closed_square_example :
    parsedPath "M0,0 L10,0 L10,10 Z" =
      PDResult.ok [⟨"M", [0, 0], some (0, 0)⟩, ⟨"L", [10, 0], some (10, 0)⟩,
        ⟨"L", [10, 10], some (10, 10)⟩, ⟨"Z", [], some (0, 0)⟩] ∧
    closedOf (segsOf (parsedPath "M0,0 L10,0 L10,10 Z")) = true ∧
    linearPointsOf (segsOf (parsedPath "M0,0 L10,0 L10,10 Z")) =
      [[(0, 0), (10, 0), (10, 10)]] := by
  decide

/-- C1 (amended): when tokenization fails, the parse aborts with the
segment list still empty, but not silently: the loop throws (dereferences
the `undefined` first element of the empty token list) rather than
returning the empty result. -/
theorem tokenize_failure_crashes (d : String) (h : tokenize d = []) :
    parseData d = PDResult.crash [] ∧ parsedPath d = PDResult.crash [] := by
  have h1 : parseDataNoRetry d = PDResult.crash [] := by
    unfold parseDataNoRetry
    rw [h]
    rfl
  have h2 : parseData d = PDResult.crash [] := by
    unfold parseData
    rw [h1]
  refine ⟨h2, ?_⟩
  unfold parsedPath
  rw [h2]

/-- Witness for `tokenize_failure_crashes` at the unlexable input `"!"`. -/
theorem tokenize_failure_crashes_witness :
    parseData "!" = PDResult.crash [] ∧ parsedPath "!" = PDResult.crash [] :=
  tokenize_failure_crashes "!" (by decide)

/-- C1 counterexample: on the unlexable input `"?"` the construction does
not return the empty segment list silently; it crashes (while the segment
list is still empty). -/
theorem tokenize_failure_counterexample :
    parsedPath "?" = PDResult.crash [] ∧ ¬ parsedPath "?" = PDResult.ok [] := by
  decide

/-- In the ended-short state reached by `"M0,0 L5"` (cursor at or past 3,
stale `L` command token, one parsed `M` segment), the loop makes no
progress at any fuel: the stale token is never the end marker and the
range guard stays false, so each iteration only advances the dead cursor. -/
theorem parseLoop_M00L5_stuck (fuel : ℕ) :
    ∀ idx : ℕ, 3 ≤ idx →
      parseLoop [PathToken.command "M", PathToken.number 0, PathToken.number 0,
          PathToken.command "L", PathToken.number 5, PathToken.endOfD] fuel idx
          (some (PathToken.command "L")) "L" [⟨"M", [0, 0], none⟩] =
        PDResult.fuelOut [⟨"M", [0, 0], none⟩] := by
  induction fuel with
  | zero => intro idx hidx; rfl
  | succ k ih =>
    intro idx hidx
    show parseBody _ (parseLoop _ k) idx (some (PathToken.command "L")) "L" _ = _
    have hplan : parsePlan "L" idx (PathToken.command "L") = some (idx + 1, "L") := by
      simp [parsePlan]
    simp only [parseBody, hplan]
    rw [if_neg (by decide : ¬ PathToken.command "L" = PathToken.endOfD)]
    show parseConsume _ (parseLoop _ k) (idx + 1) (PathToken.command "L") "L" _ = _
    have hpl : PARAMS_LENGTH "L" = some 2 := rfl
    simp only [parseConsume, hpl]
    rw [if_neg (by simp only [List.length]; omega)]
    exact ih (idx + 1) (by omega)

/-- C2 (behavior of the code at the claim's input): on `"M0,0 L5"` the
parsing loop never terminates — at every fuel of at least 2 it is still
running when the fuel is exhausted, holding exactly the one `M` segment
(the ended-short branch logs its diagnostic but neither returns nor
advances the stale token); in particular the canonical run only ever
reports fuel exhaustion with that single segment, never a return. -/
theorem parse_M00L5_diverges :
    (∀ fuel : ℕ, 2 ≤ fuel →
      parseLoop (tokenize "M0,0 L5") fuel 0 (tokenize "M0,0 L5")[0]?
          "BEGIN_OF_D" [] =
        PDResult.fuelOut [⟨"M", [0, 0], none⟩]) ∧
    parseData "M0,0 L5" = PDResult.fuelOut [⟨"M", [0, 0], none⟩] := by
  have htok : tokenize "M0,0 L5" = [PathToken.command "M", PathToken.number 0,
      PathToken.number 0, PathToken.command "L", PathToken.number 5,
      PathToken.endOfD] := by decide
  have main : ∀ fuel : ℕ, 2 ≤ fuel →
      parseLoop (tokenize "M0,0 L5") fuel 0 (tokenize "M0,0 L5")[0]?
          "BEGIN_OF_D" [] =
        PDResult.fuelOut [⟨"M", [0, 0], none⟩] := by
    intro fuel hfuel
    obtain ⟨f, rfl⟩ : ∃ f, fuel = f + 2 := ⟨fuel - 2, by omega⟩
    rw [htok]
    have hstep : parseLoop [PathToken.command "M", PathToken.number 0,
        PathToken.number 0, PathToken.command "L", PathToken.number 5,
        PathToken.endOfD] (f + 2) 0 (some (PathToken.command "M"))
        "BEGIN_OF_D" [] =
        parseLoop [PathToken.command "M", PathToken.number 0,
          PathToken.number 0, PathToken.command "L", PathToken.number 5,
          PathToken.endOfD] (f + 1) 3 (some (PathToken.command "L")) "L"
          [⟨"M", [0, 0], none⟩] := rfl
    exact hstep.trans (parseLoop_M00L5_stuck (f + 1) 3 (by omega))
  refine ⟨main, ?_⟩
  have h1 : parseDataNoRetry "M0,0 L5" = PDResult.fuelOut [⟨"M", [0, 0], none⟩] := by
    unfold parseDataNoRetry
    show parseLoop (tokenize "M0,0 L5") ((tokenize "M0,0 L5").length + 1) 0
        (tokenize "M0,0 L5")[0]? "BEGIN_OF_D" [] = _
    have hlen : (tokenize "M0,0 L5").length + 1 = 7 := by rw [htok]; rfl
    rw [hlen]
    exact main 7 (by omega)
  unfold parseData
  rw [h1]

/-- Witness for `parse_M00L5_diverges` at the concrete fuel 9. -/
theorem parse_M00L5_diverges_witness :
    parseLoop (tokenize "M0,0 L5") 9 0 (tokenize "M0,0 L5")[0]? "BEGIN_OF_D" [] =
      PDResult.fuelOut [⟨"M", [0, 0], none⟩] :=
  parse_M00L5_diverges.1 9 (by omega)

/-- Every command token the tokenizer emits carries a single-character
text (the matched letter). -/
theorem tokenizeAux_commands_singleton :
    ∀ (fuel : ℕ) (cs : List Char) (l : List PathToken),
      tokenizeAux fuel cs = some l →
      ∀ s : String, PathToken.command s ∈ l → ∃ c : Char, s = String.mk [c] := by
  intro fuel
  induction fuel with
  | zero => intro cs l h; cases h
  | succ k ih =>
    intro cs l h s hs
    cases cs with
    | nil =>
      simp only [tokenizeAux] at h
      cases h
      simp at hs
    | cons c cs2 =>
      simp only [tokenizeAux] at h
      by_cases hsep : isSepChar c
      · rw [if_pos hsep] at h
        exact ih _ _ h s hs
      · rw [if_neg hsep] at h
        by_cases hcmd : isCommandChar c
        · rw [if_pos hcmd] at h
          cases hrec : tokenizeAux k cs2 with
          | none => rw [hrec] at h; cases h
          | some l2 =>
            rw [hrec, Option.map_some'] at h
            cases h
            rcases List.mem_cons.mp hs with hh | hh
            · exact ⟨c, (PathToken.command.inj hh.symm).symm⟩
            · exact ih _ _ hrec s hh
        · rw [if_neg hcmd] at h
          cases hnum : matchNumber (c :: cs2) with
          | none => rw [hnum] at h; cases h
          | some pr =>
            obtain ⟨v, rest⟩ := pr
            rw [hnum] at h
            dsimp only at h
            cases hrec : tokenizeAux k rest with
            | none => rw [hrec] at h; cases h
            | some l2 =>
              rw [hrec, Option.map_some'] at h
              cases h
              rcases List.mem_cons.mp hs with hh | hh
              · exact absurd hh (by simp)
              · exact ih _ _ hrec s hh

/-- No token of any tokenization carries the sentinel text
`BEGIN_OF_D` (command texts are single characters). -/
theorem tokenize_commands_ne_begin (d : String) :
    ∀ s : String, PathToken.command s ∈ tokenize d → ¬ s = "BEGIN_OF_D" := by
  intro s hs hcon
  unfold tokenize at hs
  cases htk : tokenizeAux (d.data.length + 1) d.data with
  | none => rw [htk] at hs; simp at hs
  | some l =>
    rw [htk] at hs
    obtain ⟨c, hc⟩ := tokenizeAux_commands_singleton _ _ _ htk s (by simpa using hs)
    rw [hcon] at hc
    have hlen : (10 : ℕ) = 1 := congrArg (fun t => t.data.length) hc
    exact absurd hlen (by decide)

/-- Prefixing the synthetic move makes the first token the command `M`
(unless the whole tokenization fails). -/
theorem tokenize_M00_head (d : String) :
    tokenize ("M0,0" ++ d) = [] ∨
      ∃ ts, tokenize ("M0,0" ++ d) = PathToken.command "M" :: ts := by
  have hdata : ("M0,0" ++ d).data = 'M' :: ('0' :: ',' :: '0' :: d.data) := by
    cases d with
    | mk cs => rfl
  unfold tokenize
  rw [hdata]
  have h0 : ∀ fuel : ℕ,
      tokenizeAux (fuel + 1) ('M' :: ('0' :: ',' :: '0' :: d.data)) =
        (tokenizeAux fuel ('0' :: ',' :: '0' :: d.data)).map
          (fun l => PathToken.command (String.mk ['M']) :: l) := by
    intro fuel
    simp only [tokenizeAux]
    rw [if_neg (by decide : ¬ isSepChar 'M' = true),
      if_pos (by decide : isCommandChar 'M' = true)]
  rw [h0]
  cases tokenizeAux ('M' :: ('0' :: ',' :: '0' :: d.data)).length
      ('0' :: ',' :: '0' :: d.data) with
  | none => left; rfl
  | some l2 => right; exact ⟨l2, rfl⟩

/-- The consumption step cannot request the synthetic-move re-parse when
the active command is no longer the sentinel. -/
theorem parseConsume_ne_needsMove (tokens : List PathToken)
    (hcmds : ∀ c : String, PathToken.command c ∈ tokens → ¬ c = "BEGIN_OF_D")
    (k : ℕ)
    (ih : ∀ index tokOpt tv segs,
      (∀ c : String, tokOpt = some (PathToken.command c) → ¬ c = "BEGIN_OF_D") →
      ¬ tv = "BEGIN_OF_D" →
      parseLoop tokens k index tokOpt tv segs ≠ PDResult.needsMove)
    (index1 : ℕ) (tok : PathToken) (tv1 : String) (segs : List Segment)
    (htok : ∀ c : String, tok = PathToken.command c → ¬ c = "BEGIN_OF_D")
    (htv : ¬ tv1 = "BEGIN_OF_D") :
    parseConsume tokens (parseLoop tokens k) index1 tok tv1 segs ≠
      PDResult.needsMove := by
  cases hpl : PARAMS_LENGTH tv1 with
  | none =>
    simp only [parseConsume, hpl]
    exact ih _ _ _ _ (fun c hc => htok c (Option.some.inj hc)) htv
  | some pl =>
    simp only [parseConsume, hpl]
    split
    · cases hread : readParams tokens index1 pl with
      | oobCrash => simp only [hread]; intro h; exact PDResult.noConfusion h
      | notNumber => simp only [hread]; intro h; exact PDResult.noConfusion h
      | okP params =>
        simp only [hread]
        apply ih
        · intro c hc
          exact hcmds c (List.getElem?_mem hc)
        · by_cases h1 : tv1 = "M"
          · simp [h1]
          · by_cases h2 : tv1 = "m"
            · simp [h1, h2]
            · simpa [h1, h2] using htv
    · exact ih _ _ _ _ (fun c hc => htok c (Option.some.inj hc)) htv

/-- Once the active command is a real command letter the loop can no
longer request the synthetic-move re-parse, at any fuel (the tokens'
command texts are single letters, never the sentinel). -/
theorem parseLoop_ne_needsMove (tokens : List PathToken)
    (hcmds : ∀ c : String, PathToken.command c ∈ tokens → ¬ c = "BEGIN_OF_D") :
    ∀ fuel index tokOpt tv segs,
      (∀ c : String, tokOpt = some (PathToken.command c) → ¬ c = "BEGIN_OF_D") →
      ¬ tv = "BEGIN_OF_D" →
      parseLoop tokens fuel index tokOpt tv segs ≠ PDResult.needsMove := by
  intro fuel
  induction fuel with
  | zero => intro i t v s _ _ h; exact PDResult.noConfusion h
  | succ k ih =>
    intro i t v s htok htv
    cases t with
    | none =>
      intro h
      exact PDResult.noConfusion h
    | some tok =>
      by_cases he : tok = PathToken.endOfD
      · simp only [parseLoop, parseBody, if_pos he]
        intro h
        exact PDResult.noConfusion h
      · cases tok with
        | number val =>
          simp only [parseLoop, parseBody, if_neg he, parsePlan, if_neg htv]
          exact parseConsume_ne_needsMove tokens hcmds k ih i (PathToken.number val)
            v s (fun c hc => PathToken.noConfusion hc) htv
        | command c =>
          have hc : ¬ c = "BEGIN_OF_D" := htok c rfl
          simp only [parseLoop, parseBody, if_neg he, parsePlan, if_neg htv]
          exact parseConsume_ne_needsMove tokens hcmds k ih (i + 1)
            (PathToken.command c) c s
            (fun c2 hc2 => (PathToken.command.inj hc2) ▸ hc) hc
        | endOfD => exact absurd rfl he

/-- Parsing a description prefixed by the synthetic move never requests the
prefix again: either the prefixed tokenization fails (TypeError on the
missing first token), or the parse starts with the command `M`. -/
theorem parseDataNoRetry_M00_ne (d : String) :
    parseDataNoRetry ("M0,0" ++ d) ≠ PDResult.needsMove := by
  have hcmds := tokenize_commands_ne_begin ("M0,0" ++ d)
  rcases tokenize_M00_head d with h | ⟨ts, h⟩
  · unfold parseDataNoRetry
    show parseLoop (tokenize ("M0,0" ++ d)) ((tokenize ("M0,0" ++ d)).length + 1) 0
        (tokenize ("M0,0" ++ d))[0]? "BEGIN_OF_D" [] ≠ _
    rw [h]
    decide
  · rw [h] at hcmds
    unfold parseDataNoRetry
    show parseLoop (tokenize ("M0,0" ++ d)) ((tokenize ("M0,0" ++ d)).length + 1) 0
        (tokenize ("M0,0" ++ d))[0]? "BEGIN_OF_D" [] ≠ _
    rw [h]
    simp only [List.length_cons, List.getElem?_cons_zero, parseLoop, parseBody,
      parsePlan]
    exact parseConsume_ne_needsMove (PathToken.command "M" :: ts) hcmds
      (ts.length + 1)
      (fun i t v sg ht hv =>
        parseLoop_ne_needsMove (PathToken.command "M" :: ts) hcmds
          (ts.length + 1) i t v sg ht hv)
      _ (PathToken.command "M") "M" []
      (fun c hc => (PathToken.command.inj hc) ▸ (by decide : ¬ "M" = "BEGIN_OF_D"))
      (by decide)

/-- C5: an input whose first token is neither the end marker nor a move
command (the source compares the token's text with `M` and `m`; a number's
text is never a letter) is re-parsed with the synthetic `M0,0` prefix;
concretely `"L5,5"` parses to exactly 2 segments with resolved points
(0,0) and (5,5). -/
theorem no_leading_move_reparse :
    (∀ (d : String) (t : PathToken) (ts : List PathToken),
      tokenize d = t :: ts → ¬ t = PathToken.endOfD →
      ¬ t = PathToken.command "M" → ¬ t = PathToken.command "m" →
      parseData d = parseDataNoRetry ("M0,0" ++ d)) ∧
    parsedPath "L5,5" =
      PDResult.ok [⟨"M", [0, 0], some (0, 0)⟩, ⟨"L", [5, 5], some (5, 5)⟩] := by
  constructor
  · intro d t ts htok hne hnM hnm
    have h1 : parseDataNoRetry d = PDResult.needsMove := by
      unfold parseDataNoRetry
      show parseLoop (tokenize d) ((tokenize d).length + 1) 0 (tokenize d)[0]?
          "BEGIN_OF_D" [] = _
      rw [htok]
      simp only [List.length_cons, List.getElem?_cons_zero, parseLoop]
      cases t with
      | command c =>
        have hcM : ¬ c = "M" := fun hc => hnM (by rw [hc])
        have hcm : ¬ c = "m" := fun hc => hnm (by rw [hc])
        simp [parseBody, parsePlan, hcM, hcm]
      | number v => simp [parseBody, parsePlan]
      | endOfD => exact absurd rfl hne
    have h2 := parseDataNoRetry_M00_ne d
    unfold parseData
    rw [h1]
    cases hr : parseDataNoRetry ("M0,0" ++ d) with
    | needsMove => exact absurd hr h2
    | ok s => rfl
    | crash s => rfl
    | fuelOut s => rfl
  · decide

/-- Witness for `no_leading_move_reparse` at the spec's example `"L5,5"`. -/
theorem no_leading_move_reparse_witness :
    parseData "L5,5" = parseDataNoRetry ("M0,0" ++ "L5,5") :=
  no_leading_move_reparse.1 "L5,5" (PathToken.command "L")
    [PathToken.number 5, PathToken.number 5, PathToken.endOfD]
    (by decide) (by decide) (by decide) (by decide)

/-- Removing an interior element keeps the head. -/
theorem eraseIdx_head? (l : List Q2) (i : ℕ) (h1 : 1 ≤ i) :
    (l.eraseIdx i).head? = l.head? := by
  cases l with
  | nil => simp
  | cons a t =>
    obtain ⟨j, rfl⟩ : ∃ j, i = j + 1 := ⟨i - 1, by omega⟩
    rw [List.eraseIdx_cons_succ]
    rfl

/-- Removing an element strictly before the last keeps the last element. -/
theorem eraseIdx_getLast? (l : List Q2) (i : ℕ) (h2 : i + 1 < l.length) :
    (l.eraseIdx i).getLast? = l.getLast? := by
  rw [List.getLast?_eq_getElem?, List.getLast?_eq_getElem?, List.length_eraseIdx,
    if_pos (by omega : i < l.length), List.getElem?_eraseIdx,
    if_neg (by omega : ¬ l.length - 1 - 1 < i)]
  have hidx : l.length - 1 - 1 + 1 = l.length - 1 := by omega
  rw [hidx]

/-- The removal loop never lengthens the list and preserves both
endpoints (it only ever erases indices `1 ≤ i ≤ length - 2`). -/
theorem reduceLoop_invariants (count : ℕ) (points : List Q2) :
    (reduceLoop count points).length ≤ points.length ∧
    (reduceLoop count points).head? = points.head? ∧
    (reduceLoop count points).getLast? = points.getLast? := by
  have H : ∀ (n : ℕ) (pts : List Q2), pts.length ≤ n →
      (reduceLoop count pts).length ≤ pts.length ∧
      (reduceLoop count pts).head? = pts.head? ∧
      (reduceLoop count pts).getLast? = pts.getLast? := by
    intro n
    induction n with
    | zero =>
      intro pts hp
      rw [reduceLoop, dif_neg (by omega)]
      exact ⟨le_rfl, rfl, rfl⟩
    | succ k ih =>
      intro pts hp
      rw [reduceLoop]
      split
      · split
        · next hc hm =>
          rcases minAreaFold_snd pts with hml | ⟨i, hi, h1i, h2i⟩
          · rw [show minAreaIndex pts = -1 from hml] at hm
            omega
          · have hti : (minAreaIndex pts).toNat = i := by
              simp [minAreaIndex, hi]
            have hlen : (pts.eraseIdx (minAreaIndex pts).toNat).length =
                pts.length - 1 := by
              rw [hti, List.length_eraseIdx, if_pos (by omega)]
            have hrec := ih (pts.eraseIdx (minAreaIndex pts).toNat) (by omega)
            refine ⟨le_trans hrec.1 (by omega), ?_, ?_⟩
            · rw [hrec.2.1, hti, eraseIdx_head? _ _ (by omega)]
            · rw [hrec.2.2, hti, eraseIdx_getLast? _ _ (by omega)]
        · exact ⟨le_rfl, rfl, rfl⟩
      · exact ⟨le_rfl, rfl, rfl⟩
  exact H points.length points le_rfl

/-- C9: for a list of at least 2 points, `reduce` returns a list that is
never longer than its input, whose first and last elements are the input's
(only interior indices are ever eligible for removal), and when the list
is just its two endpoints the loop stops early, returning it unchanged. -/
theorem reduce_invariants (set : List Q2) (count : ℕ) (h : 2 ≤ set.length) :
    (reduce set count).length ≤ set.length ∧
    (reduce set count).head? = set.head? ∧
    (reduce set count).getLast? = set.getLast? ∧
    (set.length = 2 → reduce set count = set) := by
  unfold reduce
  split
  · exact ⟨le_rfl, rfl, rfl, fun _ => rfl⟩
  · next hc =>
    have hr := reduceLoop_invariants count set
    refine ⟨hr.1, hr.2.1, hr.2.2, ?_⟩
    intro h2
    have hni : ¬ 0 < minAreaIndex set := by
      rcases minAreaFold_snd set with hml | ⟨i, hi, h1i, h2i⟩
      · rw [show minAreaIndex set = -1 from hml]
        omega
      · rw [h2] at h2i
        omega
    rw [reduceLoop, dif_pos (by omega), dif_neg hni]

/-- Witness for `reduce_invariants` on a concrete 3-point polyline. -/
theorem reduce_invariants_witness :
    (reduce ([((0 : ℚ), (0 : ℚ)), (1, 0), (2, 0)] : List Q2) 2).length ≤
      ([((0 : ℚ), (0 : ℚ)), (1, 0), (2, 0)] : List Q2).length :=
  (reduce_invariants [((0 : ℚ), (0 : ℚ)), (1, 0), (2, 0)] 2 (by decide)).1

/-- The retained-subpath loop of `fit` agrees with the spec's description:
drop a subpath iff it has at most 5 points and target below 5, otherwise
reduce it to the target raised to a minimum of 5. -/
theorem fitOutSets_eq (sets : List (List Q2)) (r : ℚ) :
    fitOutSets sets r = sets.filterMap (fun set =>
      if set.length ≤ 5 ∧ ⌊r * (set.length : ℚ)⌋ < 5 then none
      else some (reduce set (max ⌊r * (set.length : ℚ)⌋ 5).toNat)) := by
  have key : ∀ (ss : List (List Q2)) (acc : List (List Q2)),
      ss.foldl
        (fun outSets set =>
          let est : ℤ := ⌊r * (set.length : ℚ)⌋
          if est < 5 then
            if set.length ≤ 5 then outSets
            else outSets ++ [reduce set 5]
          else outSets ++ [reduce set est.toNat]) acc =
      acc ++ ss.filterMap (fun set =>
        if set.length ≤ 5 ∧ ⌊r * (set.length : ℚ)⌋ < 5 then none
        else some (reduce set (max ⌊r * (set.length : ℚ)⌋ 5).toNat)) := by
    intro ss
    induction ss with
    | nil => intro acc; simp
    | cons a t ih =>
      intro acc
      simp only [List.foldl_cons, List.filterMap_cons]
      by_cases h1 : ⌊r * (a.length : ℚ)⌋ < 5
      · by_cases h2 : a.length ≤ 5
        · rw [if_pos h1, if_pos h2, if_pos ⟨h2, h1⟩]
          exact ih acc
        · have hmax : (max ⌊r * (a.length : ℚ)⌋ 5).toNat = 5 := by
            rw [max_eq_right (le_of_lt h1)]
            rfl
          rw [if_pos h1, if_neg h2, if_neg (fun hcon => h2 hcon.1), hmax,
            ih (acc ++ [reduce a 5])]
          simp
      · have hmax : (max ⌊r * (a.length : ℚ)⌋ 5).toNat =
            ⌊r * (a.length : ℚ)⌋.toNat := by
          rw [max_eq_left (by omega)]
        rw [if_neg h1, if_neg (fun hcon => h1 hcon.2), hmax,
          ih (acc ++ [reduce a ⌊r * (a.length : ℚ)⌋.toNat])]
        simp
  unfold fitOutSets
  simpa using key sets []

/-- C8: `fit` equals the spec-side serialization: per subpath the target is
`floor(ratio * length)` raised to a minimum of 5, a subpath with at most 5
points and computed target below 5 is dropped entirely, every other
subpath is reduced and emitted as an absolute `M` then absolute `L`s, and
`'z '` is appended per subpath exactly when the fitter is closed. -/
theorem fit_matches_spec (sets : List (List Q2)) (closed : Bool) (r : ℚ) :
    fit sets closed r = fitSpec sets closed r := by
  unfold fit fitSpec
  rw [fitOutSets_eq]

/-- Addition of finite doubles is real addition. -/
theorem JSNum.add_num (a b : ℝ) :
    JSNum.add (JSNum.num a) (JSNum.num b) = JSNum.num (a + b) := rfl

/-- Negation of a finite double is real negation. -/
theorem JSNum.neg_num (a : ℝ) : JSNum.neg (JSNum.num a) = JSNum.num (-a) := rfl

/-- Subtraction of finite doubles is real subtraction. -/
theorem JSNum.sub_num (a b : ℝ) :
    JSNum.sub (JSNum.num a) (JSNum.num b) = JSNum.num (a - b) := by
  show JSNum.num (a + -b) = JSNum.num (a - b)
  rw [← sub_eq_add_neg]

/-- Multiplication of finite doubles is real multiplication. -/
theorem JSNum.mul_num (a b : ℝ) :
    JSNum.mul (JSNum.num a) (JSNum.num b) = JSNum.num (a * b) := rfl

/-- Absolute value of a finite double. -/
theorem JSNum.abs_num (a : ℝ) : JSNum.abs (JSNum.num a) = JSNum.num |a| := rfl

/-- Sine of a finite double. -/
theorem JSNum.sin_num (a : ℝ) : JSNum.sin (JSNum.num a) = JSNum.num (Real.sin a) := rfl

/-- Cosine of a finite double. -/
theorem JSNum.cos_num (a : ℝ) : JSNum.cos (JSNum.num a) = JSNum.num (Real.cos a) := rfl

/-- Ceiling of a finite double. -/
theorem JSNum.ceil_num (a : ℝ) :
    JSNum.ceil (JSNum.num a) = JSNum.num ((⌈a⌉ : ℤ) : ℝ) := rfl

/-- `atan2` of finite doubles. -/
theorem jsAtan2_num (y x : ℝ) :
    jsAtan2 (JSNum.num y) (JSNum.num x) = JSNum.num (atan2 y x) := rfl

/-- Division of finite doubles with a nonzero divisor is real division. -/
theorem JSNum.div_num (a b : ℝ) (hb : b ≠ 0) :
    JSNum.div (JSNum.num a) (JSNum.num b) = JSNum.num (a / b) := by
  simp [JSNum.div, hb]

/-- Square root of a nonnegative finite double. -/
theorem JSNum.sqrt_num (a : ℝ) (ha : 0 ≤ a) :
    JSNum.sqrt (JSNum.num a) = JSNum.num (Real.sqrt a) := by
  simp [JSNum.sqrt, not_lt.mpr ha]

/-- Comparison lemmas on finite doubles. -/
theorem JSNum.lt_num (a b : ℝ) :
    JSNum.lt (JSNum.num a) (JSNum.num b) = decide (a < b) := rfl

/-- Non-strict comparison on finite doubles. -/
theorem JSNum.le_num (a b : ℝ) :
    JSNum.le (JSNum.num a) (JSNum.num b) = decide (a ≤ b) := rfl

/-- `>` on finite doubles. -/
theorem JSNum.gt_num (a b : ℝ) :
    JSNum.gt (JSNum.num a) (JSNum.num b) = decide (b < a) := rfl

/-- `>=` on finite doubles. -/
theorem JSNum.ge_num (a b : ℝ) :
    JSNum.ge (JSNum.num a) (JSNum.num b) = decide (b ≤ a) := rfl

/-- `===` on finite doubles. -/
theorem JSNum.eq_num (a b : ℝ) :
    JSNum.eq (JSNum.num a) (JSNum.num b) = decide (a = b) := rfl

/-- NaN absorbs through every arithmetic operation and fails every
comparison, as in IEEE. -/
theorem JSNum.nan_absorb (a : JSNum) :
    JSNum.add a JSNum.nan = JSNum.nan ∧ JSNum.add JSNum.nan a = JSNum.nan ∧
    JSNum.sub a JSNum.nan = JSNum.nan ∧ JSNum.sub JSNum.nan a = JSNum.nan ∧
    JSNum.mul a JSNum.nan = JSNum.nan ∧ JSNum.mul JSNum.nan a = JSNum.nan ∧
    JSNum.div a JSNum.nan = JSNum.nan ∧ JSNum.div JSNum.nan a = JSNum.nan ∧
    jsAtan2 a JSNum.nan = JSNum.nan ∧ jsAtan2 JSNum.nan a = JSNum.nan ∧
    JSNum.lt a JSNum.nan = false ∧ JSNum.lt JSNum.nan a = false ∧
    JSNum.le a JSNum.nan = false ∧ JSNum.le JSNum.nan a = false ∧
    JSNum.eq a JSNum.nan = false ∧ JSNum.eq JSNum.nan a = false := by
  cases a <;> exact ⟨rfl, rfl, rfl, rfl, rfl, rfl, rfl, rfl, rfl, rfl, rfl, rfl,
    rfl, rfl, rfl, rfl⟩

/-- A produced-or-null step: the result is a segment exactly when the
strict-equality guard fails. -/
theorem getNextSegmentJS_isSome (st : ArcStateJS) :
    (getNextSegmentJS st).1.isSome = true ↔
      JSNum.eq st.segIndex st.numSegs = false := by
  cases h : JSNum.eq st.segIndex st.numSegs <;> simp [getNextSegmentJS, h]

/-- A step never changes `_numSegs`. -/
theorem getNextSegmentJS_numSegs (st : ArcStateJS) :
    (getNextSegmentJS st).2.numSegs = st.numSegs := by
  cases h : JSNum.eq st.segIndex st.numSegs <;> simp [getNextSegmentJS, h]

/-- A step advances the counter exactly when it produced a segment. -/
theorem getNextSegmentJS_segIndex (st : ArcStateJS) :
    (getNextSegmentJS st).2.segIndex =
      (if JSNum.eq st.segIndex st.numSegs then st.segIndex
       else JSNum.add st.segIndex (JSNum.num 1)) := by
  cases h : JSNum.eq st.segIndex st.numSegs <;> simp [getNextSegmentJS, h]

/-- A NaN segment count persists through every step. -/
theorem arcRunJS_nan (st : ArcStateJS) (h : st.numSegs = JSNum.nan) (n : ℕ) :
    (arcRunJS st n).numSegs = JSNum.nan := by
  induction n with
  | zero => exact h
  | succ k ih =>
    show (getNextSegmentJS (arcRunJS st k)).2.numSegs = _
    rw [getNextSegmentJS_numSegs, ih]

/-- With a NaN segment count, every call produces a segment: the guard
`_segIndex === _numSegs` is never true (`NaN` compares false), so
`getNextSegment` never returns `null`. -/
theorem arcRunJS_nan_isSome (st : ArcStateJS) (h : st.numSegs = JSNum.nan) (n : ℕ) :
    (getNextSegmentJS (arcRunJS st n)).1.isSome = true := by
  rw [getNextSegmentJS_isSome, arcRunJS_nan st h n]
  exact (JSNum.nan_absorb _).2.2.2.2.2.2.2.2.2.2.2.2.2.2.1

/-- With a natural segment count and a zero counter, the counter saturates
at the count. -/
theorem arcRunJS_count (st : ArcStateJS) (N : ℕ)
    (hns : st.numSegs = JSNum.num (N : ℝ))
    (h0 : st.segIndex = JSNum.num 0) (n : ℕ) :
    (arcRunJS st n).segIndex = JSNum.num ((min n N : ℕ) : ℝ) ∧
      (arcRunJS st n).numSegs = JSNum.num (N : ℝ) := by
  induction n with
  | zero =>
    refine ⟨?_, hns⟩
    rw [show arcRunJS st 0 = st from rfl, h0]
    simp
  | succ k ih =>
    obtain ⟨h1, h2⟩ := ih
    constructor
    · show (getNextSegmentJS (arcRunJS st k)).2.segIndex = _
      rw [getNextSegmentJS_segIndex, h1, h2, JSNum.eq_num]
      simp only [decide_eq_true_eq, Nat.cast_inj]
      by_cases hk : min k N = N
      · rw [if_pos hk]
        congr 1
        norm_cast
        omega
      · rw [if_neg hk, JSNum.add_num]
        congr 1
        norm_cast
        omega
    · show (getNextSegmentJS (arcRunJS st k)).2.numSegs = _
      rw [getNextSegmentJS_numSegs, h2]

/-- With a natural segment count, the `n`-th call produces a segment
exactly while `n` is below the count. -/
theorem arcRunJS_isSome_iff (st : ArcStateJS) (N : ℕ)
    (hns : st.numSegs = JSNum.num (N : ℝ))
    (h0 : st.segIndex = JSNum.num 0) (n : ℕ) :
    ((getNextSegmentJS (arcRunJS st n)).1.isSome = true ↔ n < N) := by
  obtain ⟨h1, h2⟩ := arcRunJS_count st N hns h0 n
  rw [getNextSegmentJS_isSome, h1, h2, JSNum.eq_num]
  simp only [decide_eq_false_iff_not, Nat.cast_inj]
  omega

/-- At radii `(0, 0)` with distinct endpoints, the constructor's
`numerator / (rx0² ry0²)` is `0 / 0 = NaN`, and the cascade reaches the
sweep: `dtheta` is NaN. -/
theorem arcSetupJS_zero_radii_dtheta :
    (arcSetupJS ((0 : ℝ), (0 : ℝ)) ((2 : ℝ), (0 : ℝ)) ((0 : ℝ), (0 : ℝ)) 0
      false true).dtheta = JSNum.nan := by
  norm_num [arcSetupJS, calculateVectorAngleJS, JSNum.add, JSNum.sub, JSNum.neg,
    JSNum.mul, JSNum.div, JSNum.abs, JSNum.sqrt, JSNum.sin, JSNum.cos, JSNum.lt,
    JSNum.le, JSNum.gt, JSNum.ge, jsAtan2, Real.sin_zero, Real.cos_zero]

/-- At radii `(0, 0)` with distinct endpoints, `_numSegs = Math.ceil(NaN)`
is NaN. -/
theorem mkArcJS_zero_radii :
    (mkArcJS ((0 : ℝ), (0 : ℝ)) ((2 : ℝ), (0 : ℝ)) ((0 : ℝ), (0 : ℝ)) 0
      false true).numSegs = JSNum.nan := by
  have hne : ¬(((0 : ℝ), (0 : ℝ)).1 = ((2 : ℝ), (0 : ℝ)).1 ∧
      ((0 : ℝ), (0 : ℝ)).2 = ((2 : ℝ), (0 : ℝ)).2) := by norm_num
  rw [mkArcJS, if_neg hne]
  show JSNum.ceil (JSNum.abs (JSNum.div (arcSetupJS _ _ _ _ _ _).dtheta _)) = _
  rw [arcSetupJS_zero_radii_dtheta]
  rfl

/-- On finite inputs, the IEEE `calculateVectorAngle` computes the exact
two-vector angle. -/
theorem calculateVectorAngleJS_num (ux uy vx vy : ℝ) :
    calculateVectorAngleJS (JSNum.num ux) (JSNum.num uy) (JSNum.num vx) (JSNum.num vy) =
      JSNum.num (calculateVectorAngle ux uy vx vy) := by
  simp only [calculateVectorAngleJS, calculateVectorAngle, jsAtan2_num, JSNum.ge_num,
    JSNum.sub_num, ge_iff_le, decide_eq_true_eq]
  split_ifs <;> rfl

/-- On a finite sweep, the constructor's inline sweep adjustment computes
the exact `adjustSweep`. -/
theorem adjustSweepJS_num (sweepFlag : Bool) (d : ℝ) :
    (if sweepFlag = false ∧ JSNum.gt (JSNum.num d) (JSNum.num 0) then
       JSNum.sub (JSNum.num d) (JSNum.num (2 * Real.pi))
     else if sweepFlag = true ∧ JSNum.lt (JSNum.num d) (JSNum.num 0) then
       JSNum.add (JSNum.num d) (JSNum.num (2 * Real.pi))
     else JSNum.num d) = JSNum.num (adjustSweep sweepFlag d) := by
  simp only [adjustSweep, JSNum.gt_num, JSNum.lt_num, decide_eq_true_eq, gt_iff_lt]
  split_ifs <;> simp [JSNum.sub_num, JSNum.add_num]

/-- The bridge: whenever the endpoints differ and both radii are nonzero,
the IEEE constructor computation hits no division by zero and no negative
square root, so its sweep is the finite, exact-arithmetic `arcSetup`
sweep.  (The key step is that the root's denominator
`rx0² y1dash² + ry0² x1dash²` vanishes only if `x1dash = y1dash = 0`,
which — the rotation being an isometry — forces the endpoints to
coincide.) -/
theorem arcSetupJS_dtheta (p q radii : ℝ × ℝ) (angle : ℝ)
    (largeArcFlag sweepFlag : Bool) (hpq : p ≠ q)
    (hrx : radii.1 ≠ 0) (hry : radii.2 ≠ 0) :
    (arcSetupJS p q radii angle largeArcFlag sweepFlag).dtheta =
      JSNum.num ((arcSetup p q radii angle largeArcFlag sweepFlag).dtheta) := by
  obtain ⟨p1, p2⟩ := p
  obtain ⟨q1, q2⟩ := q
  obtain ⟨r1, r2⟩ := radii
  simp only at hrx hry
  have hpq2 : ¬(p1 = q1 ∧ p2 = q2) := fun h => hpq (by rw [h.1, h.2])
  have ha1 : |r1| ≠ 0 := abs_ne_zero.mpr hrx
  have ha2 : |r2| ≠ 0 := abs_ne_zero.mpr hry
  have hdiv2 : ∀ a : ℝ, JSNum.div (JSNum.num a) (JSNum.num 2) = JSNum.num (a / 2) :=
    fun a => JSNum.div_num a 2 two_ne_zero
  simp only [arcSetup, arcSetupJS, JSNum.abs_num, JSNum.mul_num, JSNum.sin_num,
    JSNum.cos_num, JSNum.sub_num, JSNum.add_num, JSNum.neg_num, hdiv2,
    JSNum.lt_num, decide_eq_true_eq]
  set cφ := Real.cos (angle * (Real.pi / 180)) with hcφ
  set sφ := Real.sin (angle * (Real.pi / 180)) with hsφ
  set X := cφ * (p1 - q1) / 2 + sφ * (p2 - q2) / 2 with hX
  set Y := -sφ * (p1 - q1) / 2 + cφ * (p2 - q2) / 2 with hY
  set D4 := |r1| * |r1| * |r2| * |r2| with hD4def
  set Nm := D4 - |r1| * |r1| * Y * Y - |r2| * |r2| * X * X with hNmdef
  have hD4pos : 0 < D4 := by
    rw [hD4def]
    have h1 : 0 < |r1| := abs_pos.mpr hrx
    have h2' : 0 < |r2| := abs_pos.mpr hry
    exact mul_pos (mul_pos (mul_pos h1 h1) h2') h2'
  by_cases hneg : Nm < 0
  · simp only [if_pos hneg]
    have hq : Nm / D4 < 0 := div_neg_of_neg_of_pos hneg hD4pos
    have hsarg : (0 : ℝ) ≤ 1 - Nm / D4 := by linarith
    rw [JSNum.div_num Nm D4 (ne_of_gt hD4pos)]
    simp only [JSNum.sub_num]
    rw [JSNum.sqrt_num _ hsarg]
    simp only [JSNum.mul_num]
    set SQ := Real.sqrt (1 - Nm / D4) with hSQ
    have hSQpos : 0 < SQ := by
      rw [hSQ]
      exact Real.sqrt_pos.mpr (by linarith)
    have hRX : |r1| * SQ ≠ 0 := mul_ne_zero ha1 (ne_of_gt hSQpos)
    have hRY : |r2| * SQ ≠ 0 := mul_ne_zero ha2 (ne_of_gt hSQpos)
    have hdivRX : ∀ a : ℝ, JSNum.div (JSNum.num a) (JSNum.num (|r1| * SQ)) =
        JSNum.num (a / (|r1| * SQ)) := fun a => JSNum.div_num a _ hRX
    have hdivRY : ∀ a : ℝ, JSNum.div (JSNum.num a) (JSNum.num (|r2| * SQ)) =
        JSNum.num (a / (|r2| * SQ)) := fun a => JSNum.div_num a _ hRY
    simp only [JSNum.neg_num, JSNum.mul_num, hdivRX, hdivRY, JSNum.sub_num]
    rw [calculateVectorAngleJS_num, adjustSweepJS_num]
  · simp only [if_neg hneg]
    have htrig : sφ ^ 2 + cφ ^ 2 = 1 := by
      rw [hsφ, hcφ]
      exact Real.sin_sq_add_cos_sq _
    have hD2 : |r1| * |r1| * Y * Y + |r2| * |r2| * X * X ≠ 0 := by
      intro h0
      have hx2 : (0 : ℝ) ≤ |r2| * |r2| * X * X := by nlinarith [sq_nonneg (|r2| * X)]
      have hy2 : (0 : ℝ) ≤ |r1| * |r1| * Y * Y := by nlinarith [sq_nonneg (|r1| * Y)]
      have hY0 : Y = 0 := by
        have hy0 : |r1| * |r1| * Y * Y = 0 := by linarith
        rcases mul_eq_zero.mp hy0 with h | h
        · rcases mul_eq_zero.mp h with h' | h'
          · exact absurd (mul_self_eq_zero.mp h') ha1
          · exact h'
        · exact h
      have hX0 : X = 0 := by
        have hx0 : |r2| * |r2| * X * X = 0 := by linarith
        rcases mul_eq_zero.mp hx0 with h | h
        · rcases mul_eq_zero.mp h with h' | h'
          · exact absurd (mul_self_eq_zero.mp h') ha2
          · exact h'
        · exact h
      rw [hX] at hX0
      rw [hY] at hY0
      refine hpq2 ⟨?_, ?_⟩
      · linear_combination (2 * cφ) * hX0 - (2 * sφ) * hY0 - (p1 - q1) * htrig
      · linear_combination (2 * sφ) * hX0 + (2 * cφ) * hY0 - (p2 - q2) * htrig
    have hD2pos : 0 < |r1| * |r1| * Y * Y + |r2| * |r2| * X * X := by
      rcases lt_or_eq_of_le (by nlinarith [sq_nonneg (|r1| * Y), sq_nonneg (|r2| * X)] :
          (0 : ℝ) ≤ |r1| * |r1| * Y * Y + |r2| * |r2| * X * X) with h | h
      · exact h
      · exact absurd h.symm hD2
    have hsarg2 : (0 : ℝ) ≤ Nm / (|r1| * |r1| * Y * Y + |r2| * |r2| * X * X) :=
      div_nonneg (not_lt.mp hneg) (le_of_lt hD2pos)
    rw [JSNum.div_num Nm _ hD2]
    rw [JSNum.sqrt_num _ hsarg2]
    have hdivr1 : ∀ a : ℝ, JSNum.div (JSNum.num a) (JSNum.num |r1|) =
        JSNum.num (a / |r1|) := fun a => JSNum.div_num a _ ha1
    have hdivr2 : ∀ a : ℝ, JSNum.div (JSNum.num a) (JSNum.num |r2|) =
        JSNum.num (a / |r2|) := fun a => JSNum.div_num a _ ha2
    simp only [JSNum.neg_num, JSNum.mul_num, hdivr1, hdivr2, JSNum.sub_num]
    rw [calculateVectorAngleJS_num, adjustSweepJS_num]

/-- The segment count `⌈|dtheta / (π/2)|⌉` is at most `4`, since
`|dtheta| < 2π`. -/
theorem arcSetup_count_le_four (p q radii : ℝ × ℝ) (angle : ℝ)
    (largeArcFlag sweepFlag : Bool) :
    ⌈|(arcSetup p q radii angle largeArcFlag sweepFlag).dtheta / (Real.pi / 2)|⌉₊ ≤ 4 := by
  have hpi := Real.pi_pos
  have hb := arcSetup_dtheta_bound p q radii angle largeArcFlag sweepFlag
  have habs : |(arcSetup p q radii angle largeArcFlag sweepFlag).dtheta / (Real.pi / 2)| ≤
      ((4 : ℕ) : ℝ) := by
    rw [abs_div, abs_of_pos (by linarith : (0 : ℝ) < Real.pi / 2),
      div_le_iff₀ (by linarith : (0 : ℝ) < Real.pi / 2)]
    push_cast
    linarith
  exact Nat.ceil_le.mpr habs

/-- For a non-degenerate arc (distinct endpoints, nonzero radii), the
constructor publishes `_numSegs = ⌈|dtheta / (π/2)|⌉` as a finite natural
number and starts the counter at `0`. -/
theorem mkArcJS_fields (p q radii : ℝ × ℝ) (angle : ℝ) (laf sf : Bool)
    (hpq : p ≠ q) (hrx : radii.1 ≠ 0) (hry : radii.2 ≠ 0) :
    (mkArcJS p q radii angle laf sf).numSegs =
      JSNum.num ((⌈|(arcSetup p q radii angle laf sf).dtheta / (Real.pi / 2)|⌉₊ : ℕ) : ℝ) ∧
    (mkArcJS p q radii angle laf sf).segIndex = JSNum.num 0 := by
  have hne : ¬(p.1 = q.1 ∧ p.2 = q.2) := by
    intro h
    exact hpq (Prod.ext_iff.mpr h)
  rw [mkArcJS, if_neg hne]
  refine ⟨?_, rfl⟩
  show JSNum.ceil (JSNum.abs (JSNum.div (arcSetupJS p q radii angle laf sf).dtheta
    (JSNum.num (Real.pi / 2)))) = _
  rw [arcSetupJS_dtheta p q radii angle laf sf hpq hrx hry]
  have hpi2 : (Real.pi / 2) ≠ 0 := by
    have := Real.pi_pos
    positivity
  rw [JSNum.div_num _ _ hpi2, JSNum.abs_num, JSNum.ceil_num]
  congr 1
  have h0 : (0 : ℤ) ≤ ⌈|(arcSetup p q radii angle laf sf).dtheta / (Real.pi / 2)|⌉ :=
    Int.ceil_nonneg (abs_nonneg _)
  rw [← Int.ceil_toNat]
  exact_mod_cast (Int.toNat_of_nonneg h0).symm

/-- C7 counterexample: at radii `(0, 0)` with endpoints `(0,0) ≠ (2,0)`
(no early return), `_numSegs` is `Math.ceil(NaN) = NaN`, and because
`_segIndex === _numSegs` is always false on NaN, even the fifth call to
`getNextSegment` still produces a non-null segment — refuting both the
"at most 4" bound and the "null on every subsequent call" clause of the
original claim. -/
theorem arc_nan_counterexample :
    (mkArcJS ((0 : ℝ), (0 : ℝ)) ((2 : ℝ), (0 : ℝ)) ((0 : ℝ), (0 : ℝ)) 0
        false true).numSegs = JSNum.nan ∧
    (getNextSegmentJS (arcRunJS (mkArcJS ((0 : ℝ), (0 : ℝ)) ((2 : ℝ), (0 : ℝ))
        ((0 : ℝ), (0 : ℝ)) 0 false true) 4)).1.isSome = true :=
  ⟨mkArcJS_zero_radii, arcRunJS_nan_isSome _ mkArcJS_zero_radii 4⟩

/-- C7 (amended): for every converter constructed from distinct endpoints
and *nonzero* radii, the segment count equals `⌈|dtheta| / (π/2)⌉`, that
count never exceeds 4, and `getNextSegment` produces a segment on exactly
the first `numSegs` calls and `null` on every later call.  (With a zero
radius the program instead computes `_numSegs = NaN` and never returns
`null`; see `arc_nan_counterexample`.) -/
theorem arc_segment_count_nondegenerate (p q radii : ℝ × ℝ) (angle : ℝ)
    (largeArcFlag sweepFlag : Bool) (hpq : p ≠ q)
    (hrx : radii.1 ≠ 0) (hry : radii.2 ≠ 0) :
    (mkArcJS p q radii angle largeArcFlag sweepFlag).numSegs =
      JSNum.num ((⌈|(arcSetup p q radii angle largeArcFlag sweepFlag).dtheta /
        (Real.pi / 2)|⌉₊ : ℕ) : ℝ) ∧
    ⌈|(arcSetup p q radii angle largeArcFlag sweepFlag).dtheta / (Real.pi / 2)|⌉₊ ≤ 4 ∧
    ∀ n : ℕ,
      ((getNextSegmentJS (arcRunJS (mkArcJS p q radii angle largeArcFlag sweepFlag)
          n)).1.isSome = true ↔
        n < ⌈|(arcSetup p q radii angle largeArcFlag sweepFlag).dtheta /
          (Real.pi / 2)|⌉₊) := by
  obtain ⟨h1, h2⟩ := mkArcJS_fields p q radii angle largeArcFlag sweepFlag hpq hrx hry
  exact ⟨h1, arcSetup_count_le_four p q radii angle largeArcFlag sweepFlag,
    fun n => arcRunJS_isSome_iff _ _ h1 h2 n⟩

/-- Witness for `arc_segment_count_nondegenerate` at the quarter-circle
arc from `(10, 0)` to `(0, 10)` with radii `(10, 10)`. -/
theorem arc_segment_count_nondegenerate_witness :
    ((10 : ℝ), (0 : ℝ)) ≠ ((0 : ℝ), (10 : ℝ)) ∧
    ((10 : ℝ), (10 : ℝ)).1 ≠ 0 ∧ ((10 : ℝ), (10 : ℝ)).2 ≠ 0 ∧
    ⌈|(arcSetup ((10 : ℝ), (0 : ℝ)) ((0 : ℝ), (10 : ℝ)) ((10 : ℝ), (10 : ℝ)) 0
      false true).dtheta / (Real.pi / 2)|⌉₊ ≤ 4 :=
  ⟨by norm_num [Prod.ext_iff], by norm_num, by norm_num,
    (arc_segment_count_nondegenerate ((10 : ℝ), (0 : ℝ)) ((0 : ℝ), (10 : ℝ))
      ((10 : ℝ), (10 : ℝ)) 0 false true (by norm_num [Prod.ext_iff]) (by norm_num)
      (by norm_num)).2.1⟩
